import Mathlib

/-!
Oxidisk privileged helper: verification of the disk-operations engine.

This file gives a shallow embedding, in Lean 4, of the pure logic of the
Oxidisk privileged helper (`src-tauri/src/bin/oxidisk_helper.rs`) and proves
or refutes the specified properties of that logic.

Modelling conventions:

* Rust `String`/`&str` values are modelled as `List Char`; Rust's Unicode
  `trim`/`to_lowercase` are modelled by their ASCII behaviour (all inputs
  relevant to the properties are ASCII).
* Byte quantities (`u64`) are modelled as `Nat`; every value handled by the
  helper is far below `2^64`, and no wrapping arithmetic occurs in the
  modelled code paths.
* The helper's floating-point size arithmetic (`f64` in `parse_size_bytes`)
  is modelled bit-faithfully: the decimal string is rounded to the nearest
  IEEE-754 binary64 value (ties to even, with subnormals,
  overflow-to-infinity and the guarantee that Rust's `f64::from_str` is
  correctly rounded), the multiplier — always an exact power of two — is
  applied exactly, and `.floor() as u64` floors the exact value and
  saturates at `u64::MAX`.  All of this is realised in integer arithmetic
  on the pair `(a, k)` with `number = a / 10^k`.
* Effectful steps (diskutil / sidecar invocations, block-device I/O, the
  journal file) are modelled by an explicit event trace (`Ev`) together
  with environment parameters giving each external step's outcome; block
  devices are modelled as total functions `Nat → Nat` from byte offset to
  byte value.
* SHA-256 digests are modelled abstractly: a digest is identified with the
  absorbed byte stream (hash of equal streams is equal, which is the only
  property of SHA-256 the code relies on for the verified claims).
-/

namespace Oxidisk

/-! ## Rust string primitives (ASCII model) -/

/-- Model of `str::trim`: drop whitespace from both ends (ASCII whitespace model). -/
def trimChars (cs : List Char) : List Char :=
  ((cs.dropWhile (fun c => c.isWhitespace)).reverse.dropWhile
    (fun c => c.isWhitespace)).reverse

/-- Model of `str::to_lowercase` (ASCII model). -/
def lowerStr (cs : List Char) : List Char := cs.map Char.toLower

/-- Model of `str::starts_with`. -/
def prefixAt : List Char → List Char → Bool
  | [], _ => true
  | _ :: _, [] => false
  | a :: as, b :: bs => decide (a = b) && prefixAt as bs

/-- Fuelled loop of `trimStartMatches`; each successful strip removes at
least one character, so `cs.length` is enough fuel for the Rust loop. -/
def trimStartMatchesAux : Nat → List Char → List Char → List Char
  | 0, _, cs => cs
  | fuel + 1, pat, cs =>
    if prefixAt pat cs ∧ pat ≠ [] then
      trimStartMatchesAux fuel pat (cs.drop pat.length)
    else cs

/-- Model of `str::trim_start_matches`: repeatedly strip a leading occurrence of
`pat`. -/
def trimStartMatches (pat : List Char) (cs : List Char) : List Char :=
  trimStartMatchesAux cs.length pat cs

/-- Model of `str::rfind` for a single character: index of its last occurrence. -/
def rfindIdx (cs : List Char) (c : Char) : Option Nat :=
  match cs with
  | [] => none
  | a :: t =>
    match rfindIdx t c with
    | some i => some (i + 1)
    | none => if a = c then some 0 else none

/-- Model of `str::contains(&str)`: substring test. -/
def hasSub (hay needle : List Char) : Bool :=
  match hay with
  | [] => needle.isEmpty
  | _ :: t => prefixAt needle hay || hasSub t needle

/-- Numeric value of a digit string (used below only on all-digit input). -/
def digitsVal (cs : List Char) : Nat :=
  cs.foldl (fun a c => 10 * a + (c.toNat - 48)) 0

/-- Model of `str::parse::<u32>()`: optional `+` sign, digits, range check. -/
def parseU32 (cs : List Char) : Option Nat :=
  let ds := match cs with
    | '+' :: t => t
    | _ => cs
  if ds ≠ [] ∧ ds.all (fun c => c.isDigit) then
    if digitsVal ds < 4294967296 then some (digitsVal ds) else none
  else none

/-! ## Device-name handling (`normalize_device`, `partition_number`,
`parent_disk_identifier`, `raw_device_path`) -/

/-- Model of `normalize_device`. -/
def normalize_device (identifier : List Char) : List Char :=
  if prefixAt "/dev/".toList identifier then identifier
  else "/dev/".toList ++ identifier

/-- Model of `partition_number`: strip `/dev/`, take the characters after the last
`s` and parse them as a `u32`. -/
def partition_number (device : List Char) : Option Nat :=
  let cleaned := trimStartMatches "/dev/".toList device
  match rfindIdx cleaned 's' with
  | none => none
  | some i => parseU32 (cleaned.drop (i + 1))

/-- Model of `parent_disk_identifier`: strip `/dev/`, keep everything before the
last `s`, re-attach `/dev/`. -/
def parent_disk_identifier (device : List Char) : Option (List Char) :=
  let cleaned := trimStartMatches "/dev/".toList device
  match rfindIdx cleaned 's' with
  | none => none
  | some i => some ("/dev/".toList ++ cleaned.take i)

/-! ## Size parsing (`parse_size_bytes`, `align_mib`) -/

/-- The character class kept in the numeric part of `parse_size_bytes`
(Rust: `c.is_ascii_digit() || *c == '.'`). -/
def isNumChar (c : Char) : Bool := c.isDigit || decide (c = '.')

/-- The exact decimal value read by `f64::from_str` on a digits-and-dots
string, as the pair `(a, k)` with value `a / 10^k`.  Mirrors the accepted
shapes (`"5"`, `"5."`, `".5"`, `"2.5"`; rejects `""`, `"."`, two dots);
`roundF64` below then performs the binary64 rounding that `f64::from_str`
applies to this value (Rust's float parsing is correctly rounded). -/
def parseNumber (cs : List Char) : Option (Nat × Nat) :=
  match cs.splitOn '.' with
  | [i] => if i = [] then none else some (digitsVal i, 0)
  | [i, f] =>
    if i = [] ∧ f = [] then none
    else some (digitsVal i * 10 ^ f.length + digitsVal f, f.length)
  | _ => none

/-- Round half to even of `n / d` (for `d > 0`): the integer rounding used
at every IEEE-754 rounding step below. -/
def rhe (n d : Nat) : Nat :=
  let q := n / d
  let r := n % d
  if 2 * r < d then q
  else if d < 2 * r then q + 1
  else if q % 2 = 0 then q else q + 1

/-- Floor of log2, by fuelled repeated halving (`Nat.log2` itself is
defined by well-founded recursion and does not reduce in the kernel). -/
def natLog2Fuel : Nat → Nat → Nat
  | 0, _ => 0
  | fuel + 1, n => if 2 ≤ n then natLog2Fuel fuel (n / 2) + 1 else 0

/-- Floor of log2 of a positive natural (0 for 0 and 1). -/
def natLog2 (n : Nat) : Nat := natLog2Fuel n n

/-- Decides `2 ^ p ≤ a / 10 ^ k` by exact integer cross-multiplication. -/
def twoPowLe (a k : Nat) (p : Int) : Bool :=
  if 0 ≤ p then decide (2 ^ p.toNat * 10 ^ k ≤ a)
  else decide (10 ^ k ≤ a * 2 ^ (-p).toNat)

/-- The floor of `log2 (a / 10 ^ k)` for `a ≥ 1`.  Since
`natLog2 a ≤ log2 a < natLog2 a + 1` and likewise for `10 ^ k`, the floor
lies in `{c - 1, c, c + 1}` for `c = natLog2 a - natLog2 (10 ^ k)`; the
exact comparisons pick it out. -/
def floorLog2Q (a k : Nat) : Int :=
  let c : Int := (natLog2 a : Int) - (natLog2 (10 ^ k) : Int)
  if twoPowLe a k (c + 1) then c + 1
  else if twoPowLe a k c then c
  else c - 1

/-- A binary64 value: infinity, or the exact (not necessarily normalised)
finite value `m * 2 ^ e`. -/
structure F64 where
  isInf : Bool
  m : Nat
  e : Int
deriving DecidableEq

/-- The correctly rounded (round to nearest, ties to even) IEEE-754
binary64 value of the positive decimal `a / 10 ^ k`: for a value with
floor-log2 `p ≥ -1022` the mantissa is the 53-bit rounding of
`v / 2 ^ (p - 52)` (a carry to `2^53` and overflow to infinity beyond the
largest finite double are handled); below `2 ^ -1022` the value is
rounded onto the subnormal grid of spacing `2 ^ -1074`. -/
def roundF64 (a k : Nat) : F64 :=
  if a = 0 then ⟨false, 0, 0⟩
  else
    let p := floorLog2Q a k
    if p < -1022 then
      ⟨false, rhe (a * 2 ^ 1074) (10 ^ k), -1074⟩
    else
      let s : Int := p - 52
      let m :=
        if 0 ≤ s then rhe a (10 ^ k * 2 ^ s.toNat)
        else rhe (a * 2 ^ (-s).toNat) (10 ^ k)
      if 0 ≤ s ∧ 2 ^ 1024 ≤ m * 2 ^ s.toNat then ⟨true, 0, 0⟩
      else ⟨false, m, s⟩

/-- Rust `u64::MAX`. -/
def u64Max : Nat := 18446744073709551615

/-- The value of `(number * multiplier).floor() as u64` where `number` is
the binary64 `x` and the multiplier is `2 ^ j`: scaling a finite double by
a power of two is exact (overflow beyond `u64::MAX` is covered by the
saturating cast, which also sends infinity to `u64::MAX`), and `floor` of
the exact value `m * 2 ^ e` is an integer shift. -/
def mulPow2FloorU64 (x : F64) (j : Nat) : Nat :=
  if x.isInf then u64Max
  else
    let e := x.e + (j : Int)
    if 0 ≤ e then min (x.m * 2 ^ e.toNat) u64Max
    else x.m / 2 ^ (-e).toNat

/-- The byte value `parse_size_bytes` computes for the decimal `a / 10^k`
and multiplier `mult`: binary64 rounding of the number, exact
multiplication (every multiplier is exactly `2 ^ (10 i)`, so `natLog2`
recovers the exponent), floor, saturating cast. -/
def sizeValue (a k mult : Nat) : Nat :=
  mulPow2FloorU64 (roundF64 a k) (natLog2 mult)

/-- The suffix multiplier table of `parse_size_bytes`. -/
def suffixMult (sfx : List Char) : Option Nat :=
  if sfx = "b".toList ∨ sfx = [] then some 1
  else if sfx = "k".toList ∨ sfx = "kb".toList then some 1024
  else if sfx = "m".toList ∨ sfx = "mb".toList then some (1024 * 1024)
  else if sfx = "g".toList ∨ sfx = "gb".toList then some (1024 * 1024 * 1024)
  else if sfx = "t".toList ∨ sfx = "tb".toList then
    some (1024 * 1024 * 1024 * 1024)
  else none

/-- Model of `parse_size_bytes`: trim and lowercase, split the characters
into the digit-and-dot ones (in order) and the rest (in order), parse the
former as an `f64`, the (trimmed) latter as a suffix, and return
`(number * multiplier).floor() as u64` (see `sizeValue`). -/
def parse_size_bytes (value : List Char) : Except String Nat :=
  let trimmed := lowerStr (trimChars value)
  let parts := trimmed.partition isNumChar
  match parseNumber parts.1 with
  | none => .error "Invalid size"
  | some (a, k) =>
    match suffixMult (trimChars parts.2) with
    | none => .error "Invalid size suffix"
    | some m => .ok (sizeValue a k m)

/-- Model of `align_mib`: align down to a 1 MiB boundary. -/
def align_mib (value : Nat) : Nat :=
  let mib := 1024 * 1024
  value / mib * mib

/-! ## Partition info and the `move_partition` validation rules -/

/-- Structure `PartitionInfo` as produced by `read_partition_info` (which always sets
`min_start := partition_offset`). -/
structure PartitionInfo where
  device : List Char
  disk : List Char
  partition_offset : Nat
  partition_size : Nat
  block_size : Nat
  min_start : Nat
  max_end : Nat
deriving DecidableEq

/-- The input-validation section of `move_partition`: the sequence of
rejection tests run on the MiB-aligned requested start before any journal
write or copy. -/
def movePartitionCheck (info : PartitionInfo) (new_start : Nat) :
    Except String Unit :=
  let aligned_start := align_mib new_start
  if aligned_start < info.min_start ∨ aligned_start ≥ info.max_end then
    .error "Invalid target start"
  else
    let size := info.partition_size
    let old_start := info.partition_offset
    let old_end := old_start + size
    let new_end := aligned_start + size
    if new_end > info.max_end then .error "Move exceeds available space"
    else if aligned_start < old_end ∧ new_end > old_start then
      .error "Move would overlap existing data"
    else .ok ()

/-! ## Filesystem-type fusion (`detect_fs_type`) -/

/-- The per-candidate tag test of `detect_fs_type`: inside the loop body,
the patterns are tried against one candidate field in the fixed order. -/
def detectTag (candidate : List Char) : Option (List Char) :=
  if hasSub candidate "apfs".toList then some "apfs".toList
  else if hasSub candidate "exfat".toList then some "exfat".toList
  else if hasSub candidate "msdos".toList || hasSub candidate "fat32".toList
      || hasSub candidate "fat".toList then some "fat32".toList
  else if hasSub candidate "ntfs".toList then some "ntfs".toList
  else if hasSub candidate "ext4".toList || hasSub candidate "linux".toList then
    some "ext4".toList
  else if hasSub candidate "btrfs".toList then some "btrfs".toList
  else if hasSub candidate "xfs".toList then some "xfs".toList
  else if hasSub candidate "f2fs".toList then some "f2fs".toList
  else if hasSub candidate "swap".toList then some "swap".toList
  else none

/-- The candidate list built by `detect_fs_type`: the values of
`FilesystemType`, `Type` and `Content` (each lowercased), in that order,
omitting absent keys. -/
def candidatesOf (filesystemType typ content : Option (List Char)) :
    List (List Char) :=
  (filesystemType.toList ++ typ.toList ++ content.toList).map lowerStr

/-- The `for candidate in candidates` loop of `detect_fs_type`. -/
def detectLoop : List (List Char) → List Char
  | [] => "unknown".toList
  | c :: rest =>
    match detectTag c with
    | some t => t
    | none => detectLoop rest

/-- Model of `detect_fs_type`, as a function of the three candidate fields read from
the `diskutil info -plist` dictionary. -/
def detect_fs_type (filesystemType typ content : Option (List Char)) :
    List Char :=
  detectLoop (candidatesOf filesystemType typ content)

/-- Modelled from the spec claim's words (for comparison with the code):
"the detected filesystem tag is the first tag in the fixed priority order
... whose substring matches any of the three fields" — i.e. the outer
iteration is over the tags, the inner one over the candidate fields. -/
def specDetectLoop (cands : List (List Char)) :
    List (List (List Char) × List Char) → List Char
  | [] => "unknown".toList
  | (pats, tag) :: rest =>
    if cands.any (fun c => pats.any (fun p => hasSub c p)) then tag
    else specDetectLoop cands rest

/-- The pattern groups and tags in the documented priority order. -/
def specPatternGroups : List (List (List Char) × List Char) :=
  [(["apfs".toList], "apfs".toList),
   (["exfat".toList], "exfat".toList),
   (["msdos".toList, "fat32".toList, "fat".toList], "fat32".toList),
   (["ntfs".toList], "ntfs".toList),
   (["ext4".toList, "linux".toList], "ext4".toList),
   (["btrfs".toList], "btrfs".toList),
   (["xfs".toList], "xfs".toList),
   (["f2fs".toList], "f2fs".toList),
   (["swap".toList], "swap".toList)]

/-- Modelled from the spec: tag-major fusion rule (see `specDetectLoop`). -/
def spec_detect_fs_type (filesystemType typ content : Option (List Char)) :
    List Char :=
  specDetectLoop (candidatesOf filesystemType typ content) specPatternGroups

/-! ## The size grammar, modelled from the spec (for C7) -/

/-- A valid `<number>` of the spec grammar (digits with at most one dot and
at least one digit — exactly the strings `f64::from_str` accepts here). -/
def numberOkB (cs : List Char) : Bool :=
  cs.all isNumChar && (parseNumber cs).isSome

/-- A valid (possibly empty) suffix of the spec grammar. -/
def suffixOkB (sfx : List Char) : Bool := (suffixMult sfx).isSome

/-- Modelled from the spec: the size grammar
`<number>[b|k|kb|m|mb|g|gb|t|tb]` (case-insensitive, empty suffix allowed):
the string splits into a number followed by a valid suffix. -/
def sizeGrammar (s : List Char) : Bool :=
  (List.range (s.length + 1)).any
    (fun k => numberOkB (s.take k) && suffixOkB (lowerStr (s.drop k)))

/-! ## Event traces for the effectful operations -/

/-- The alphabet of modelled effectful steps.  `progressB` carries the
`phase`, `bytes` and `totalBytes` fields of the emitted progress record
(the `percent` field is a float derivative of `bytes` and is not modelled;
no verified property mentions it). -/
inductive Ev where
  | detectFs (device : List Char)
  | swapoffRun
  | unmount (device : List Char)
  | unmountDisk (disk : List Char)
  | progressB (phase : List Char) (bytes : Nat) (totalBytes : Nat)
  | chunkCopy (readPos writePos len : Nat)
  | journalWrite (lastCopied : Nat)
  | journalUpd (lastCopied : Nat)
  | sgdiskCmd
  | journalClear
  | syncKernel (device : List Char)
  | diskutilRun (args : List (List Char))
  | sidecarStream (binary : List Char) (args : List (List Char))
deriving DecidableEq

/-- Result of a block-copy loop: the final device contents, the event
trace, and whether the copy completed without an I/O error. -/
structure CopyOut where
  disk : Nat → Nat
  evs : List Ev
  ok : Bool

/-- The 4 MiB copy buffer of `copy_blocks` / the flash loops. -/
def bufferSize : Nat := 4 * 1024 * 1024

/-- The 50 MiB progress step. -/
def progressStep : Nat := 50 * 1024 * 1024

/-- One chunk of a same-disk copy: read `len` bytes at `readPos` into the
buffer (from the pre-write state), then write them at `writePos`. -/
def writeChunk (d : Nat → Nat) (readPos writePos len : Nat) : Nat → Nat :=
  fun i =>
    if writePos ≤ i ∧ i < writePos + len then d (readPos + (i - writePos))
    else d i

/-- The back-to-front loop of `copy_blocks` (taken when
`dst_offset > src_offset`).  `fuel` is an upper bound on the number of
iterations (every chunk is at least one byte, so `size` is enough);
`failAt = some k` injects an I/O failure at the start of iteration `k`. -/
def copyLoopB (fuel : Nat) (d : Nat → Nat) (src dst size : Nat)
    (pos copied nextP : Nat) (jr : Bool) (failAt : Option Nat) (idx : Nat) :
    CopyOut :=
  match fuel with
  | 0 => ⟨d, [], true⟩
  | fuel + 1 =>
    if pos = 0 then ⟨d, [], true⟩
    else if failAt = some idx then ⟨d, [], false⟩
    else
      let chunk := min bufferSize pos
      let pos' := pos - chunk
      let d' := writeChunk d (src + pos') (dst + pos') chunk
      let copied' := copied + chunk
      let hit := decide (nextP ≤ copied')
      let evsP :=
        if hit then
          Ev.progressB "move".toList copied' size ::
            (if jr then [Ev.journalUpd copied'] else [])
        else []
      let nextP' := if hit then nextP + progressStep else nextP
      let rest := copyLoopB fuel d' src dst size pos' copied' nextP' jr failAt
        (idx + 1)
      ⟨rest.disk, Ev.chunkCopy (src + pos') (dst + pos') chunk ::
        (evsP ++ rest.evs), rest.ok⟩

/-- The front-to-back loop of `copy_blocks` (taken when
`dst_offset ≤ src_offset`). -/
def copyLoopF (fuel : Nat) (d : Nat → Nat) (src dst size : Nat)
    (pos copied nextP : Nat) (jr : Bool) (failAt : Option Nat) (idx : Nat) :
    CopyOut :=
  match fuel with
  | 0 => ⟨d, [], true⟩
  | fuel + 1 =>
    if pos < size then
      if failAt = some idx then ⟨d, [], false⟩
      else
        let chunk := min bufferSize (size - pos)
        let d' := writeChunk d (src + pos) (dst + pos) chunk
        let copied' := copied + chunk
        let hit := decide (nextP ≤ copied')
        let evsP :=
          if hit then
            Ev.progressB "move".toList copied' size ::
              (if jr then [Ev.journalUpd copied'] else [])
          else []
        let nextP' := if hit then nextP + progressStep else nextP
        let rest := copyLoopF fuel d' src dst size (pos + chunk) copied' nextP'
          jr failAt (idx + 1)
        ⟨rest.disk, Ev.chunkCopy (src + pos) (dst + pos) chunk ::
          (evsP ++ rest.evs), rest.ok⟩
    else ⟨d, [], true⟩

/-- Model of `copy_blocks`: the same-disk chunked copy of `size` bytes from
`src_offset` to `dst_offset`, back-to-front exactly when
`dst_offset > src_offset`. -/
def copy_blocks (d : Nat → Nat) (src_offset dst_offset size : Nat)
    (journal : Bool) (failAt : Option Nat) : CopyOut :=
  if src_offset < dst_offset then
    copyLoopB size d src_offset dst_offset size size 0 progressStep journal
      failAt 0
  else
    copyLoopF size d src_offset dst_offset size 0 0 progressStep journal
      failAt 0

/-! ## The journal state machine -/

/-- Replay the journal-file effects of a trace over the journal state
(`none` = no journal file, `some v` = journal file with `lastCopied = v`).
`update_journal_progress` is a no-op when the file does not exist. -/
def journalReplay (j : Option Nat) : List Ev → Option Nat
  | [] => j
  | Ev.journalWrite n :: t => journalReplay (some n) t
  | Ev.journalUpd n :: t =>
    journalReplay (match j with | some _ => some n | none => none) t
  | Ev.journalClear :: t => journalReplay none t
  | _ :: t => journalReplay j t

/-- Predicate `updOk b evs`: every journal write/update in `evs` records exactly the
cumulative number of bytes copied by the chunk events before it (`b` bytes
were already copied before `evs`). -/
def updOk : Nat → List Ev → Bool
  | _, [] => true
  | b, Ev.chunkCopy _ _ len :: t => updOk (b + len) t
  | b, Ev.journalWrite v :: t => decide (v = b) && updOk b t
  | b, Ev.journalUpd v :: t => decide (v = b) && updOk b t
  | b, _ :: t => updOk b t

/-- The `lastCopied` values written to the journal, in trace order. -/
def journalVals (evs : List Ev) : List Nat :=
  evs.filterMap (fun e =>
    match e with
    | Ev.journalWrite v => some v
    | Ev.journalUpd v => some v
    | _ => none)

/-- The `bytes` fields of the progress events, in trace order. -/
def progressVals (evs : List Ev) : List Nat :=
  evs.filterMap (fun e =>
    match e with
    | Ev.progressB _ b _ => some b
    | _ => none)

/-- The read offsets of the chunk-copy events, in trace order. -/
def chunkReads (evs : List Ev) : List Nat :=
  evs.filterMap (fun e =>
    match e with
    | Ev.chunkCopy r _ _ => some r
    | _ => none)

/-- The events a copy loop can emit (used to reason about the journal
state across the copy: none of these removes the journal file). -/
def copyEvBenign : Ev → Bool
  | Ev.chunkCopy _ _ _ => true
  | Ev.progressB _ _ _ => true
  | Ev.journalUpd _ => true
  | _ => false

/-! ## `move_partition` and `handle_move_partition` -/

/-- Outcomes of the external steps taken during a move, plus the partition
metadata returned by `read_partition_info` (assumed to succeed — metadata
read failures abort before any modelled claim applies). -/
structure MoveEnv where
  fsType : List Char
  swapoffOk : Bool
  unmountDiskRes : Except String Unit
  sgdiskFound : Bool
  sgdiskRes : Except String Unit
  info : PartitionInfo
  diskBytes : Nat → Nat
  copyFailAt : Option Nat

/-- Model of `maybe_swapoff`: detect the filesystem; only a `swap` filesystem
triggers a `swapoff` attempt.  The two ways of running `swapoff` (bare
command, sidecar) are collapsed into the single outcome `swapoffOk`. -/
def maybe_swapoff_run (device : List Char) (env : MoveEnv) :
    List Ev × Except String Unit :=
  if env.fsType ≠ "swap".toList then ([Ev.detectFs device], .ok ())
  else if env.swapoffOk then ([Ev.detectFs device, Ev.swapoffRun], .ok ())
  else ([Ev.detectFs device], .error "swapoff not available")

/-- Model of `force_unmount_disk`: best-effort unmount of the volume, then a
hard-required unmount of the parent whole disk. -/
def force_unmount_run (device : List Char) (env : MoveEnv) :
    List Ev × Except String Unit :=
  let disk := (parent_disk_identifier device).getD device
  ([Ev.unmount device, Ev.unmountDisk disk], env.unmountDiskRes)

/-- Model of `move_partition`: sgdisk lookup, validation, journal write, journaled
block copy, GPT rewrite, journal clear.  The copy-failure error message is
the dynamic I/O error string in the code; it is modelled by the constant
`"I/O error"`. -/
def move_partition_run (device : List Char) (new_start : Nat)
    (env : MoveEnv) : List Ev × Except String Unit :=
  if env.sgdiskFound = false then ([], .error "sgdisk is required for move")
  else
    match movePartitionCheck env.info new_start with
    | .error e => ([], .error e)
    | .ok _ =>
      let aligned_start := align_mib new_start
      let co := copy_blocks env.diskBytes env.info.partition_offset
        aligned_start env.info.partition_size true env.copyFailAt
      let evs0 := Ev.journalWrite 0 :: co.evs
      if co.ok = false then (evs0, .error "I/O error")
      else
        match partition_number device with
        | none => (evs0, .error "Invalid partition")
        | some _ =>
          match env.sgdiskRes with
          | .error e => (evs0 ++ [Ev.sgdiskCmd], .error e)
          | .ok _ => (evs0 ++ [Ev.sgdiskCmd, Ev.journalClear], .ok ())

/-- Model of `handle_move_partition`: payload field reads, quiescence, size parse,
boundary progress events, `move_partition`, kernel-table refresh. -/
def handle_move_partition_run (partitionIdentifier newStart :
    Option (List Char)) (env : MoveEnv) : List Ev × Except String Unit :=
  match partitionIdentifier with
  | none => ([], .error "Missing field: partitionIdentifier")
  | some pid =>
    match newStart with
    | none => ([], .error "Missing field: newStart")
    | some ns =>
      let device := normalize_device pid
      let swp := maybe_swapoff_run device env
      match swp.2 with
      | .error e => (swp.1, .error e)
      | .ok _ =>
        let fum := force_unmount_run device env
        match fum.2 with
        | .error e => (swp.1 ++ fum.1, .error e)
        | .ok _ =>
          match parse_size_bytes ns with
          | .error e => (swp.1 ++ fum.1, .error e)
          | .ok target_start =>
            let evp := [Ev.progressB "move".toList 0 0]
            let mv := move_partition_run device target_start env
            match mv.2 with
            | .error e => (swp.1 ++ fum.1 ++ evp ++ mv.1, .error e)
            | .ok _ =>
              (swp.1 ++ fum.1 ++ evp ++ mv.1 ++
                [Ev.progressB "move".toList 0 0, Ev.syncKernel device],
                .ok ())

/-! ## `flash_image` -/

/-- Result of the streaming write loop of `flash_write_with_hash`: the
device contents after the write, the byte stream absorbed by the hasher
(SHA-256 digests are identified with their absorbed streams, see the
header), and the emitted progress events. -/
structure FlashOut where
  dev : Nat → Nat
  absorbed : List Nat
  evs : List Ev

/-- The write loop of `flash_write_with_hash`: sequential 4 MiB chunks,
each written to the device and absorbed into the digest; progress on every
50 MiB step and on the final chunk. -/
def flashWriteLoop (fuel : Nat) (img dev : Nat → Nat)
    (total pos nextP : Nat) : FlashOut :=
  match fuel with
  | 0 => ⟨dev, [], []⟩
  | fuel + 1 =>
    if pos < total then
      let chunk := min bufferSize (total - pos)
      let dev' := fun i => if pos ≤ i ∧ i < pos + chunk then img i else dev i
      let absorbedC := (List.range chunk).map (fun j => img (pos + j))
      let copied' := pos + chunk
      let hit := decide (nextP ≤ copied') || decide (copied' = total)
      let evsP :=
        if hit then [Ev.progressB "flash".toList copied' total] else []
      let nextP' := if hit then nextP + progressStep else nextP
      let rest := flashWriteLoop fuel img dev' total copied' nextP'
      ⟨rest.dev, absorbedC ++ rest.absorbed, evsP ++ rest.evs⟩
    else ⟨dev, [], []⟩

/-- Model of `flash_write_with_hash`: rejects an empty image, then streams. -/
def flash_write_with_hash (img dev : Nat → Nat) (total_bytes : Nat) :
    Except String FlashOut :=
  if total_bytes = 0 then .error "Image is empty"
  else .ok (flashWriteLoop total_bytes img dev total_bytes 0 progressStep)

/-- The read loop of `flash_verify_with_hash`: absorb `total` bytes
re-read from the target device. -/
def flashVerifyLoop (fuel : Nat) (dev : Nat → Nat) (total pos nextP : Nat) :
    List Nat × List Ev :=
  match fuel with
  | 0 => ([], [])
  | fuel + 1 =>
    if pos < total then
      let chunk := min bufferSize (total - pos)
      let absorbedC := (List.range chunk).map (fun j => dev (pos + j))
      let copied' := pos + chunk
      let hit := decide (nextP ≤ copied') || decide (copied' = total)
      let evsP :=
        if hit then [Ev.progressB "verify".toList copied' total] else []
      let nextP' := if hit then nextP + progressStep else nextP
      let rest := flashVerifyLoop fuel dev total copied' nextP'
      (absorbedC ++ rest.1, evsP ++ rest.2)
    else ([], [])

/-- Model of `flash_verify_with_hash`. -/
def flash_verify_with_hash (dev : Nat → Nat) (total_bytes : Nat) :
    Except String (List Nat × List Ev) :=
  if total_bytes = 0 then .error "Image is empty"
  else .ok (flashVerifyLoop total_bytes dev total_bytes 0 progressStep)

/-- The `details` payload of a successful `flash_image`. -/
structure FlashResult where
  bytes : Nat
  sourceHash : List Nat
  verifiedHash : Option (List Nat)
  verified : Bool
deriving DecidableEq

/-- Model of `handle_flash_image`: size gate, unmount, hashed write, optional
verify pass with digest comparison, kernel refresh, result payload.
`readBack` is the device content observed by the verify pass (the physical
re-read); path-string handling (`normalize_device`, `raw_device_path`) is
orthogonal to the verified properties and is represented by the device
argument of the unmount event. -/
def handle_flash_image_run (device : List Char) (fileSize diskSize : Nat)
    (img dev readBack : Nat → Nat) (verify : Bool) :
    List Ev × Except String FlashResult :=
  if diskSize > 0 ∧ fileSize > diskSize then
    ([], .error "Image is larger than target device")
  else
    let evU := [Ev.unmount device, Ev.unmountDisk
      ((parent_disk_identifier device).getD device)]
    match flash_write_with_hash img dev fileSize with
    | .error e => (evU, .error e)
    | .ok w =>
      if verify then
        match flash_verify_with_hash readBack fileSize with
        | .error e => (evU ++ w.evs, .error e)
        | .ok v =>
          if v.1 ≠ w.absorbed then
            (evU ++ w.evs ++ v.2,
              .error "Verification failed: checksum mismatch")
          else
            (evU ++ w.evs ++ v.2 ++ [Ev.syncKernel device],
              .ok ⟨fileSize, w.absorbed, some v.1, verify⟩)
      else
        (evU ++ w.evs ++ [Ev.syncKernel device],
          .ok ⟨fileSize, w.absorbed, none, verify⟩)

/-! ## `handle_create_partition_table` -/

/-- Outcomes of the two external steps of `create_partition_table`. -/
structure TableEnv where
  unmountDiskRes : Except String Unit
  partitionDiskRes : Except String Unit

/-- Model of `handle_create_partition_table`: read the two payload fields,
check the table type (the dynamic message suffix — the offending type —
is not modelled), and only then quiesce and repartition.  The scheme
check precedes `normalize_device` and `force_unmount_disk` exactly as in
the source. -/
def handle_create_partition_table_run (deviceIdentifier tableType :
    Option (List Char)) (env : TableEnv) : List Ev × Except String Unit :=
  match deviceIdentifier with
  | none => ([], .error "Missing field: deviceIdentifier")
  | some d =>
    match tableType with
    | none => ([], .error "Missing field: tableType")
    | some t =>
      let lt := lowerStr t
      if lt = "gpt".toList ∨ lt = "mbr".toList then
        let scheme := if lt = "gpt".toList then "GPT".toList else "MBR".toList
        let device := normalize_device d
        let disk := (parent_disk_identifier device).getD device
        let evU := [Ev.unmount device, Ev.unmountDisk disk]
        match env.unmountDiskRes with
        | .error e => (evU, .error e)
        | .ok _ =>
          let evP := [Ev.diskutilRun ["partitionDisk".toList, device,
            "1".toList, scheme, "free".toList, "%noformat%".toList,
            "100%".toList]]
          match env.partitionDiskRes with
          | .error e => (evU ++ evP, .error e)
          | .ok _ => (evU ++ evP ++ [Ev.syncKernel device], .ok ())
      else ([], .error "Unsupported table type")

/-! ## `validate_uuid`, the driver capability table, and
`handle_set_label_uuid` -/

/-- Rust `char::is_ascii_hexdigit`. -/
def isHexChar (c : Char) : Bool :=
  c.isDigit || (decide ('a' ≤ c) && decide (c ≤ 'f')) ||
    (decide ('A' ≤ c) && decide (c ≤ 'F'))

/-- The group lengths of `validate_uuid`. -/
def uuidGroupLens : List Nat := [8, 4, 4, 4, 12]

/-- Model of `validate_uuid`: the literal `random`, or five
hyphen-separated hex groups of lengths 8-4-4-4-12. -/
def validate_uuid (uuid : List Char) : Except String Unit :=
  if uuid = "random".toList then .ok ()
  else
    let parts := uuid.splitOn '-'
    if parts.length ≠ 5 then .error "Invalid UUID format"
    else if (parts.zip uuidGroupLens).all
        (fun pl => decide (pl.1.length = pl.2) && pl.1.all isHexChar) then
      .ok ()
    else .error "Invalid UUID format"

/-- The `label_command` column of the driver table in `fs_driver.rs`. -/
def driverLabelCommand (fs device label : List Char) :
    Option (List Char × List (List Char)) :=
  if fs = "ext4".toList then some ("e2label".toList, [device, label])
  else if fs = "ntfs".toList then some ("ntfslabel".toList, [device, label])
  else if fs = "btrfs".toList then
    some ("btrfs".toList, ["filesystem".toList, "label".toList, device,
      label])
  else if fs = "xfs".toList then
    some ("xfs_admin".toList, ["-L".toList, label, device])
  else if fs = "swap".toList then
    some ("swaplabel".toList, ["-L".toList, label, device])
  else none

/-- The `uuid_command` column of the driver table in `fs_driver.rs`. -/
def driverUuidCommand (fs device uuid : List Char) :
    Option (List Char × List (List Char)) :=
  if fs = "ext4".toList then
    some ("tune2fs".toList, ["-U".toList, uuid, device])
  else if fs = "swap".toList then
    some ("swaplabel".toList, ["-U".toList, uuid, device])
  else none

/-- Outcomes of the external steps of `set_label_uuid`: the detected
filesystem, and the result of the label-changing and the uuid-changing
invocation (each covers both the sidecar lookup and its run). -/
structure LabelUuidEnv where
  fsType : List Char
  labelRes : Except String Unit
  uuidRes : Except String Unit

/-- Model of `handle_set_label_uuid`: payload reads, the
at-least-one-of-label-and-uuid check, filesystem detection, then the
per-family dispatch; in the Linux-driver family the label change runs
BEFORE `validate_uuid` is consulted, exactly as in the source. -/
def handle_set_label_uuid_run (partitionIdentifier label uuid :
    Option (List Char)) (env : LabelUuidEnv) :
    List Ev × Except String Unit :=
  match partitionIdentifier with
  | none => ([], .error "Missing field: partitionIdentifier")
  | some pid =>
    let device := normalize_device pid
    if label = none ∧ uuid = none then
      ([], .error "No label or UUID provided")
    else
      let evD := [Ev.detectFs device]
      if env.fsType = "apfs".toList then
        let st1 : List Ev × Except String Unit :=
          match label with
          | some l =>
            ([Ev.diskutilRun ["renameVolume".toList, device, l]],
              env.labelRes)
          | none => ([], .ok ())
        match st1.2 with
        | .error e => (evD ++ st1.1, .error e)
        | .ok _ =>
          let st2 : List Ev × Except String Unit :=
            match uuid with
            | some u =>
              ([Ev.diskutilRun ["apfs".toList, "changeVolumeUUID".toList,
                device, u]], env.uuidRes)
            | none => ([], .ok ())
          match st2.2 with
          | .error e => (evD ++ st1.1 ++ st2.1, .error e)
          | .ok _ =>
            (evD ++ st1.1 ++ st2.1 ++ [Ev.syncKernel device], .ok ())
      else if env.fsType = "ext4".toList ∨ env.fsType = "ntfs".toList ∨
          env.fsType = "btrfs".toList ∨ env.fsType = "xfs".toList ∨
          env.fsType = "f2fs".toList ∨ env.fsType = "swap".toList then
        let st1 : List Ev × Except String Unit :=
          match label with
          | some l =>
            match driverLabelCommand env.fsType device l with
            | some bc => ([Ev.sidecarStream bc.1 bc.2], env.labelRes)
            | none => ([], .error "Label change not supported")
          | none => ([], .ok ())
        match st1.2 with
        | .error e => (evD ++ st1.1, .error e)
        | .ok _ =>
          match uuid with
          | some u =>
            match validate_uuid u with
            | .error e => (evD ++ st1.1, .error e)
            | .ok _ =>
              match driverUuidCommand env.fsType device u with
              | some bc =>
                match env.uuidRes with
                | .error e =>
                  (evD ++ st1.1 ++ [Ev.sidecarStream bc.1 bc.2], .error e)
                | .ok _ =>
                  (evD ++ st1.1 ++ [Ev.sidecarStream bc.1 bc.2] ++
                    [Ev.syncKernel device], .ok ())
              | none => (evD ++ st1.1, .error "UUID change not supported")
          | none => (evD ++ st1.1 ++ [Ev.syncKernel device], .ok ())
      else if env.fsType = "exfat".toList ∨ env.fsType = "fat32".toList
          then
        let st1 : List Ev × Except String Unit :=
          match label with
          | some l =>
            ([Ev.diskutilRun ["renameVolume".toList, device, l]],
              env.labelRes)
          | none => ([], .ok ())
        match st1.2 with
        | .error e => (evD ++ st1.1, .error e)
        | .ok _ =>
          if uuid.isSome then
            (evD ++ st1.1, .error "FAT/ExFAT UUID change is not supported")
          else (evD ++ st1.1 ++ [Ev.syncKernel device], .ok ())
      else (evD, .error "Unsupported filesystem for label/UUID")

/-! ## Property-list model and `handle_apfs_list_volumes` -/

/-- Property-list values (the fragment the helper inspects). -/
inductive PV where
  | pstr (v : List Char)
  | pint (v : Int)
  | puint (v : Nat)
  | pbool (v : Bool)
  | parr (vs : List PV)
  | pdict (kvs : List (List Char × PV))

/-- Model of `Value::as_string`. -/
def pvAsString : PV → Option (List Char)
  | .pstr v => some v
  | _ => none

/-- Model of `Value::as_array`. -/
def pvAsArr : PV → Option (List PV)
  | .parr vs => some vs
  | _ => none

/-- Model of `BTreeMap::get` on a dictionary. -/
def lookupKey (kvs : List (List Char × PV)) (key : List Char) : Option PV :=
  (kvs.find? (fun kv => decide (kv.1 = key))).map (fun kv => kv.2)

/-- The numeric extraction inside `plist_u64`: unsigned integers directly,
signed integers only when non-negative. -/
def pv_u64 : PV → Option Nat
  | .puint v => some v
  | .pint v => if 0 ≤ v then some v.toNat else none
  | _ => none

/-- Model of `plist_u64`: first key in the list whose value yields a `u64`. -/
def plist_u64 (kvs : List (List Char × PV)) :
    List (List Char) → Option Nat
  | [] => none
  | k :: rest =>
    match lookupKey kvs k with
    | some v =>
      match pv_u64 v with
      | some n => some n
      | none => plist_u64 kvs rest
    | none => plist_u64 kvs rest

/-- Model of `plist_string`: first key in the list whose value is a string. -/
def plist_string (kvs : List (List Char × PV)) :
    List (List Char) → Option (List Char)
  | [] => none
  | k :: rest =>
    match (lookupKey kvs k).bind pvAsString with
    | some s => some s
    | none => plist_string kvs rest

/-- Model of `plist_string_array`: first key whose value is an array; its string
elements. -/
def plist_string_array (kvs : List (List Char × PV)) :
    List (List Char) → List (List Char)
  | [] => []
  | k :: rest =>
    match (lookupKey kvs k).bind pvAsArr with
    | some arr => arr.filterMap pvAsString
    | none => plist_string_array kvs rest

/-- A volume entry of the `apfs_list_volumes` details payload. -/
structure VolumeView where
  identifier : List Char
  name : List Char
  roles : List (List Char)
  size : Nat
  used : Nat
  mountPoint : Option (List Char)
deriving DecidableEq

/-- The key list used (twice) for the `size` and `used` fields. -/
def capacityKeys : List (List Char) :=
  ["CapacityInUse".toList, "CapacityInUseBytes".toList,
    "CapacityUsed".toList]

/-- The per-volume record built in the loop body of
`handle_apfs_list_volumes` (source lines 347-361). -/
def mkVolumeView (vd : List (List Char × PV)) : VolumeView :=
  { identifier :=
      (plist_string vd ["DeviceIdentifier".toList,
        "DeviceReference".toList]).getD []
    name := (plist_string vd ["Name".toList, "VolumeName".toList]).getD []
    roles := plist_string_array vd ["Roles".toList,
      "APFSVolumeRoles".toList]
    size := (plist_u64 vd capacityKeys).getD 0
    used := (plist_u64 vd capacityKeys).getD 0
    mountPoint := plist_string vd ["MountPoint".toList] }

/-- The volume entries of a container dictionary (`Volumes`, falling back
to `APFSVolumes`). -/
def volumeEntriesOf (cd : List (List Char × PV)) : List PV :=
  match (lookupKey cd "Volumes".toList).bind pvAsArr with
  | some arr => arr
  | none =>
    match (lookupKey cd "APFSVolumes".toList).bind pvAsArr with
    | some arr => arr
    | none => []

/-- The `volumes` array of the `apfs_list_volumes` details payload for a
matched container dictionary (non-dictionary entries are skipped). -/
def apfs_volumes_payload (cd : List (List Char × PV)) : List VolumeView :=
  (volumeEntriesOf cd).filterMap (fun pv =>
    match pv with
    | .pdict vd => some (mkVolumeView vd)
    | _ => none)

end Oxidisk

deriving instance DecidableEq for Except

namespace Oxidisk

/-! ## General lemmas -/

theorem detectLoop_eq_find (l : List (List Char)) :
    detectLoop l =
      match l.find? (fun c => (detectTag c).isSome) with
      | some c => (detectTag c).getD "unknown".toList
      | none => "unknown".toList := by
  induction l with
  | nil => rfl
  | cons a t ih =>
    rw [detectLoop, List.find?_cons]
    cases h : detectTag a with
    | some v => simp [h]
    | none => simp [h, ih]

theorem mem_apfs_volumes (cd : List (List Char × PV)) (v : VolumeView)
    (hv : v ∈ apfs_volumes_payload cd) : ∃ vd, v = mkVolumeView vd := by
  unfold apfs_volumes_payload at hv
  rw [List.mem_filterMap] at hv
  obtain ⟨pv, _, heq⟩ := hv
  cases pv <;> simp at heq
  exact ⟨_, heq.symm⟩

theorem digit_toLower (c : Char) (h : c.isDigit = true) : c.toLower = c := by
  simp only [Char.isDigit, decide_eq_true_eq, Bool.and_eq_true] at h
  simp only [Char.toLower, Char.toNat]
  rw [if_neg]
  obtain ⟨h1, h2⟩ := h
  intro hc
  obtain ⟨h3, h4⟩ := hc
  have h2' : c.val.toNat ≤ (57 : UInt32).toNat := h2
  have he : (57 : UInt32).toNat = 57 := rfl
  omega

theorem digit_not_ws (c : Char) (h : c.isDigit = true) :
    c.isWhitespace = false := by
  by_contra hb
  rw [Bool.not_eq_false] at hb
  simp only [Char.isWhitespace, Bool.or_eq_true, decide_eq_true_eq] at hb
  have hd : c = ' ' ∨ c = '\t' ∨ c = '\r' ∨ c = '\n' := by tauto
  rcases hd with he | he | he | he <;> subst he <;> exact absurd h (by decide)

theorem numChar_toLower (c : Char) (h : isNumChar c = true) :
    c.toLower = c := by
  simp only [isNumChar, Bool.or_eq_true, decide_eq_true_eq] at h
  rcases h with h | h
  · exact digit_toLower c h
  · subst h; decide

theorem numChar_not_ws (c : Char) (h : isNumChar c = true) :
    c.isWhitespace = false := by
  simp only [isNumChar, Bool.or_eq_true, decide_eq_true_eq] at h
  rcases h with h | h
  · exact digit_not_ws c h
  · subst h; decide

theorem dropWhile_of_not_head (p : Char → Bool) (cs : List Char)
    (h : ∀ c ∈ cs, p c = false) : cs.dropWhile p = cs := by
  cases cs with
  | nil => rfl
  | cons a t =>
    rw [List.dropWhile_cons, if_neg]
    simp [h a (by simp)]

theorem trim_of_not_ws (cs : List Char)
    (h : ∀ c ∈ cs, c.isWhitespace = false) : trimChars cs = cs := by
  unfold trimChars
  rw [dropWhile_of_not_head _ cs h,
    dropWhile_of_not_head _ cs.reverse (by simpa using h), List.reverse_reverse]

theorem lower_of_fixed (cs : List Char) (h : ∀ c ∈ cs, c.toLower = c) :
    lowerStr cs = cs := by
  unfold lowerStr
  rw [List.map_congr_left h]
  simp

theorem partition_append_split (p : Char → Bool) (xs ys : List Char)
    (hx : ∀ c ∈ xs, p c = true) (hy : ∀ c ∈ ys, p c = false) :
    (xs ++ ys).partition p = (xs, ys) := by
  rw [List.partition_eq_filter_filter, List.filter_append,
    List.filter_append]
  rw [List.filter_eq_self.mpr hx,
    List.filter_eq_nil_iff.mpr (fun a ha => by simp [hy a ha]),
    List.filter_eq_nil_iff.mpr (fun a ha => by simp [hx a ha]),
    List.filter_eq_self.mpr (fun a ha => by simp [hy a ha])]
  simp

theorem suffixMult_cases (sfx : List Char) (m : Nat)
    (h : suffixMult sfx = some m) :
    (sfx = "b".toList ∨ sfx = []) ∨ (sfx = "k".toList ∨ sfx = "kb".toList) ∨
      (sfx = "m".toList ∨ sfx = "mb".toList) ∨
      (sfx = "g".toList ∨ sfx = "gb".toList) ∨
      (sfx = "t".toList ∨ sfx = "tb".toList) := by
  unfold suffixMult at h
  split at h
  · next hc => exact Or.inl hc
  · split at h
    · next hc => exact Or.inr (Or.inl hc)
    · split at h
      · next hc => exact Or.inr (Or.inr (Or.inl hc))
      · split at h
        · next hc => exact Or.inr (Or.inr (Or.inr (Or.inl hc)))
        · split at h
          · next hc => exact Or.inr (Or.inr (Or.inr (Or.inr hc)))
          · exact absurd h (by simp)

theorem parse_size_bytes_append (num sfx : List Char) (a k mult : Nat)
    (hnum : ∀ c ∈ num, isNumChar c = true)
    (hpn : parseNumber num = some (a, k))
    (hsm : suffixMult sfx = some mult) :
    parse_size_bytes (num ++ sfx) = .ok (sizeValue a k mult) := by
  have hsfx10 := suffixMult_cases sfx mult hsm
  have hs_ws : ∀ c ∈ sfx, c.isWhitespace = false := by
    rcases hsfx10 with (h | h) | (h | h) | (h | h) | (h | h) | (h | h) <;>
      subst h <;> decide
  have hs_low : ∀ c ∈ sfx, c.toLower = c := by
    rcases hsfx10 with (h | h) | (h | h) | (h | h) | (h | h) | (h | h) <;>
      subst h <;> decide
  have hs_p : ∀ c ∈ sfx, isNumChar c = false := by
    rcases hsfx10 with (h | h) | (h | h) | (h | h) | (h | h) | (h | h) <;>
      subst h <;> decide
  have htrim : trimChars (num ++ sfx) = num ++ sfx := by
    refine trim_of_not_ws _ (fun c hc => ?_)
    rcases List.mem_append.mp hc with h | h
    · exact numChar_not_ws c (hnum c h)
    · exact hs_ws c h
  have hlow : lowerStr (num ++ sfx) = num ++ sfx := by
    refine lower_of_fixed _ (fun c hc => ?_)
    rcases List.mem_append.mp hc with h | h
    · exact numChar_toLower c (hnum c h)
    · exact hs_low c h
  have hpart : (num ++ sfx).partition isNumChar = (num, sfx) :=
    partition_append_split _ _ _ hnum hs_p
  have htrims : trimChars sfx = sfx := trim_of_not_ws _ hs_ws
  simp only [parse_size_bytes, htrim, hlow, hpart, hpn, htrims, hsm]

theorem bufferSize_pos : 0 < bufferSize := by decide

theorem copyLoopB_disk (src dst size : Nat) (hlt : src < dst) :
    ∀ (fuel : Nat) (pos : Nat) (d d0 : Nat → Nat) (copied nextP idx : Nat)
      (jr : Bool), pos ≤ fuel →
      (∀ j, j < pos → d (src + j) = d0 (src + j)) →
      (∀ j, pos ≤ j → j < size → d (dst + j) = d0 (src + j)) →
      ∀ j, j < size →
        (copyLoopB fuel d src dst size pos copied nextP jr none idx).disk
          (dst + j) = d0 (src + j) := by
  intro fuel
  induction fuel with
  | zero =>
    intro pos d d0 copied nextP idx jr hfuel inv1 inv2 j hj
    have hpos : pos = 0 := by omega
    subst hpos
    exact inv2 j (by omega) hj
  | succ fuel ih =>
    intro pos d d0 copied nextP idx jr hfuel inv1 inv2 j hj
    by_cases hp : pos = 0
    · subst hp
      simp only [copyLoopB, if_pos rfl]
      exact inv2 j (by omega) hj
    · have hbs := bufferSize_pos
      have hch : 1 ≤ min bufferSize pos := by omega
      have hch2 : min bufferSize pos ≤ pos := by omega
      simp only [copyLoopB, if_neg hp]
      rw [if_neg (by simp)]
      refine ih (pos - min bufferSize pos) _ d0 _ _ _ jr (by omega) ?_ ?_ j hj
      · intro i hi
        show writeChunk d (src + (pos - min bufferSize pos))
          (dst + (pos - min bufferSize pos)) (min bufferSize pos) (src + i)
            = d0 (src + i)
        unfold writeChunk
        rw [if_neg (by omega)]
        exact inv1 i (by omega)
      · intro i hi1 hi2
        show writeChunk d (src + (pos - min bufferSize pos))
          (dst + (pos - min bufferSize pos)) (min bufferSize pos) (dst + i)
            = d0 (src + i)
        unfold writeChunk
        by_cases hin : i < pos
        · rw [if_pos (by omega)]
          have harg : src + (pos - min bufferSize pos) +
              (dst + i - (dst + (pos - min bufferSize pos))) = src + i := by
            omega
          rw [harg]
          exact inv1 i hin
        · rw [if_neg (by omega)]
          exact inv2 i (by omega) hi2

theorem copyLoopF_disk (src dst size : Nat) (hle : dst ≤ src) :
    ∀ (fuel : Nat) (pos : Nat) (d d0 : Nat → Nat) (copied nextP idx : Nat)
      (jr : Bool), size - pos ≤ fuel →
      (∀ j, pos ≤ j → j < size → d (src + j) = d0 (src + j)) →
      (∀ j, j < pos → d (dst + j) = d0 (src + j)) →
      ∀ j, j < size →
        (copyLoopF fuel d src dst size pos copied nextP jr none idx).disk
          (dst + j) = d0 (src + j) := by
  intro fuel
  induction fuel with
  | zero =>
    intro pos d d0 copied nextP idx jr hfuel inv1 inv2 j hj
    simp only [copyLoopF]
    exact inv2 j (by omega)
  | succ fuel ih =>
    intro pos d d0 copied nextP idx jr hfuel inv1 inv2 j hj
    by_cases hp : pos < size
    · have hbs := bufferSize_pos
      have hch : 1 ≤ min bufferSize (size - pos) := by omega
      have hch2 : min bufferSize (size - pos) ≤ size - pos := by omega
      simp only [copyLoopF, if_pos hp]
      rw [if_neg (by simp)]
      refine ih (pos + min bufferSize (size - pos)) _ d0 _ _ _ jr (by omega)
        ?_ ?_ j hj
      · intro i hi1 hi2
        show writeChunk d (src + pos) (dst + pos)
          (min bufferSize (size - pos)) (src + i) = d0 (src + i)
        unfold writeChunk
        rw [if_neg (by omega)]
        exact inv1 i (by omega) hi2
      · intro i hi
        show writeChunk d (src + pos) (dst + pos)
          (min bufferSize (size - pos)) (dst + i) = d0 (src + i)
        unfold writeChunk
        by_cases hin : i < pos
        · rw [if_neg (by omega)]
          exact inv2 i hin
        · rw [if_pos (by omega)]
          have harg : src + pos + (dst + i - (dst + pos)) = src + i := by
            omega
          rw [harg]
          exact inv1 i (by omega) (by omega)
    · simp only [copyLoopF, if_neg hp]
      exact inv2 j (by omega)

theorem chunkReads_cons_chunk (r w l : Nat) (evs : List Ev) :
    chunkReads (Ev.chunkCopy r w l :: evs) = r :: chunkReads evs := rfl

theorem chunkReads_progress (ph : List Char) (b t : Nat) (evs : List Ev) :
    chunkReads (Ev.progressB ph b t :: evs) = chunkReads evs := rfl

theorem chunkReads_upd (v : Nat) (evs : List Ev) :
    chunkReads (Ev.journalUpd v :: evs) = chunkReads evs := rfl

theorem copyLoopB_reads (src dst size : Nat) :
    ∀ (fuel : Nat) (pos : Nat) (d : Nat → Nat) (copied nextP idx : Nat)
      (jr : Bool) (failAt : Option Nat),
      (∀ r ∈ chunkReads
        (copyLoopB fuel d src dst size pos copied nextP jr failAt idx).evs,
        r < src + pos) ∧
      List.Chain' (fun a b => a > b) (chunkReads
        (copyLoopB fuel d src dst size pos copied nextP jr failAt idx).evs)
    := by
  intro fuel
  induction fuel with
  | zero =>
    intro pos d copied nextP idx jr failAt
    simp [copyLoopB, chunkReads]
  | succ fuel ih =>
    intro pos d copied nextP idx jr failAt
    by_cases hp : pos = 0
    · simp [copyLoopB, hp, chunkReads]
    · by_cases hf : failAt = some idx
      · simp [copyLoopB, hp, hf, chunkReads]
      · have hbs := bufferSize_pos
        have hch : 1 ≤ min bufferSize pos := by omega
        have hch2 : min bufferSize pos ≤ pos := by omega
        simp only [copyLoopB, if_neg hp, if_neg hf]
        cases hhit : decide (nextP ≤ copied + min bufferSize pos) <;>
          cases hjr : jr <;>
          simp only [hhit, hjr, Bool.false_eq_true, if_false, if_true,
            chunkReads, List.filterMap_cons, List.filterMap_append,
            List.filterMap_nil, List.nil_append, List.cons_append] <;>
        · obtain ⟨ihm, ihc⟩ := ih (pos - min bufferSize pos)
            (writeChunk d (src + (pos - min bufferSize pos))
              (dst + (pos - min bufferSize pos)) (min bufferSize pos))
            (copied + min bufferSize pos)
            (if decide (nextP ≤ copied + min bufferSize pos) = true then
              nextP + progressStep else nextP) (idx + 1) jr failAt
          rw [hhit, hjr] at ihm ihc
          simp only [chunkReads] at ihm ihc
          simp only [hhit, hjr, Bool.false_eq_true, if_false, if_true]
            at ihm ihc
          constructor
          · intro r hr
            rcases List.mem_cons.mp hr with h | h
            · omega
            · have := ihm r h
              omega
          · refine List.chain'_cons'.mpr ⟨?_, ihc⟩
            intro b hb
            have hbm := ihm b (List.mem_of_mem_head? hb)
            omega

theorem copyLoopF_reads (src dst size : Nat) :
    ∀ (fuel : Nat) (pos : Nat) (d : Nat → Nat) (copied nextP idx : Nat)
      (jr : Bool) (failAt : Option Nat),
      (∀ r ∈ chunkReads
        (copyLoopF fuel d src dst size pos copied nextP jr failAt idx).evs,
        src + pos ≤ r) ∧
      List.Chain' (fun a b => a < b) (chunkReads
        (copyLoopF fuel d src dst size pos copied nextP jr failAt idx).evs)
    := by
  intro fuel
  induction fuel with
  | zero =>
    intro pos d copied nextP idx jr failAt
    simp [copyLoopF, chunkReads]
  | succ fuel ih =>
    intro pos d copied nextP idx jr failAt
    by_cases hp : pos < size
    · by_cases hf : failAt = some idx
      · simp [copyLoopF, hp, hf, chunkReads]
      · have hbs := bufferSize_pos
        have hch : 1 ≤ min bufferSize (size - pos) := by omega
        simp only [copyLoopF, if_pos hp, if_neg hf]
        cases hhit : decide (nextP ≤ copied + min bufferSize (size - pos))
          <;> cases hjr : jr <;>
          simp only [hhit, hjr, Bool.false_eq_true, if_false, if_true,
            chunkReads, List.filterMap_cons, List.filterMap_append,
            List.filterMap_nil, List.nil_append, List.cons_append] <;>
        · obtain ⟨ihm, ihc⟩ := ih (pos + min bufferSize (size - pos))
            (writeChunk d (src + pos) (dst + pos)
              (min bufferSize (size - pos)))
            (copied + min bufferSize (size - pos))
            (if decide (nextP ≤ copied + min bufferSize (size - pos)) =
              true then nextP + progressStep else nextP) (idx + 1) jr failAt
          rw [hhit, hjr] at ihm ihc
          simp only [chunkReads] at ihm ihc
          simp only [hhit, hjr, Bool.false_eq_true, if_false, if_true]
            at ihm ihc
          constructor
          · intro r hr
            rcases List.mem_cons.mp hr with h | h
            · omega
            · have := ihm r h
              omega
          · refine List.chain'_cons'.mpr ⟨?_, ihc⟩
            intro b hb
            have hbm := ihm b (List.mem_of_mem_head? hb)
            omega
    · simp [copyLoopF, hp, chunkReads]

theorem copyLoopB_benign (src dst size : Nat) :
    ∀ (fuel : Nat) (pos : Nat) (d : Nat → Nat) (copied nextP idx : Nat)
      (jr : Bool) (failAt : Option Nat),
      ∀ e ∈ (copyLoopB fuel d src dst size pos copied nextP jr failAt
        idx).evs, copyEvBenign e = true := by
  intro fuel
  induction fuel with
  | zero =>
    intro pos d copied nextP idx jr failAt
    simp [copyLoopB]
  | succ fuel ih =>
    intro pos d copied nextP idx jr failAt
    by_cases hp : pos = 0
    · simp [copyLoopB, hp]
    · by_cases hf : failAt = some idx
      · simp [copyLoopB, hp, hf]
      · simp only [copyLoopB, if_neg hp, if_neg hf]
        intro e he
        rcases List.mem_cons.mp he with h | h
        · subst h; rfl
        · rcases List.mem_append.mp h with h2 | h2
          · cases hhit : decide (nextP ≤ copied + min bufferSize pos) <;>
              cases hjr : jr <;> rw [hhit, hjr] at h2 <;> simp at h2 <;>
              first
              | (rcases h2 with h3 | h3 <;> subst h3 <;> rfl)
              | (subst h2; rfl)
          · exact ih _ _ _ _ _ _ _ e h2

theorem copyLoopF_benign (src dst size : Nat) :
    ∀ (fuel : Nat) (pos : Nat) (d : Nat → Nat) (copied nextP idx : Nat)
      (jr : Bool) (failAt : Option Nat),
      ∀ e ∈ (copyLoopF fuel d src dst size pos copied nextP jr failAt
        idx).evs, copyEvBenign e = true := by
  intro fuel
  induction fuel with
  | zero =>
    intro pos d copied nextP idx jr failAt
    simp [copyLoopF]
  | succ fuel ih =>
    intro pos d copied nextP idx jr failAt
    by_cases hp : pos < size
    · by_cases hf : failAt = some idx
      · simp [copyLoopF, hp, hf]
      · simp only [copyLoopF, if_pos hp, if_neg hf]
        intro e he
        rcases List.mem_cons.mp he with h | h
        · subst h; rfl
        · rcases List.mem_append.mp h with h2 | h2
          · cases hhit : decide (nextP ≤ copied + min bufferSize
              (size - pos)) <;> cases hjr : jr <;> rw [hhit, hjr] at h2 <;>
              simp at h2 <;>
              first
              | (rcases h2 with h3 | h3 <;> subst h3 <;> rfl)
              | (subst h2; rfl)
          · exact ih _ _ _ _ _ _ _ e h2
    · simp [copyLoopF, hp]

theorem copy_blocks_benign (d : Nat → Nat) (src dst size : Nat)
    (jr : Bool) (failAt : Option Nat) :
    ∀ e ∈ (copy_blocks d src dst size jr failAt).evs,
      copyEvBenign e = true := by
  unfold copy_blocks
  by_cases h : src < dst
  · rw [if_pos h]; exact copyLoopB_benign src dst size size size d 0
      progressStep 0 jr failAt
  · rw [if_neg h]; exact copyLoopF_benign src dst size size 0 d 0
      progressStep 0 jr failAt

theorem journalReplay_append (l₁ l₂ : List Ev) (j : Option Nat) :
    journalReplay j (l₁ ++ l₂) = journalReplay (journalReplay j l₁) l₂ := by
  induction l₁ generalizing j with
  | nil => rfl
  | cons e t ih => cases e <;> simp [journalReplay, ih]

theorem journalReplay_benign_isSome (l : List Ev)
    (h : ∀ e ∈ l, copyEvBenign e = true) (v : Nat) :
    (journalReplay (some v) l).isSome = true := by
  induction l generalizing v with
  | nil => rfl
  | cons e t ih =>
    have he := h e (by simp)
    have ht : ∀ x ∈ t, copyEvBenign x = true := fun x hx => h x (by simp [hx])
    cases e <;> simp [copyEvBenign] at he <;> simp [journalReplay] <;>
      exact ih ht _

theorem updOk_append_true (l₁ l₂ : List Ev) (b : Nat)
    (h₁ : updOk b l₁ = true) (h₂ : ∀ b', updOk b' l₂ = true) :
    updOk b (l₁ ++ l₂) = true := by
  induction l₁ generalizing b with
  | nil => exact h₂ b
  | cons e t ih =>
    cases e <;> simp only [updOk, List.cons_append, Bool.and_eq_true]
      at h₁ ⊢ <;> try exact ih _ h₁
    · exact ⟨h₁.1, ih _ h₁.2⟩
    · exact ⟨h₁.1, ih _ h₁.2⟩

theorem copyLoopB_updOk (src dst size : Nat) :
    ∀ (fuel : Nat) (pos : Nat) (d : Nat → Nat) (copied nextP idx : Nat)
      (jr : Bool) (failAt : Option Nat),
      updOk copied (copyLoopB fuel d src dst size pos copied nextP jr
        failAt idx).evs = true := by
  intro fuel
  induction fuel with
  | zero =>
    intro pos d copied nextP idx jr failAt
    simp [copyLoopB, updOk]
  | succ fuel ih =>
    intro pos d copied nextP idx jr failAt
    by_cases hp : pos = 0
    · simp [copyLoopB, hp, updOk]
    · by_cases hf : failAt = some idx
      · simp [copyLoopB, hp, hf, updOk]
      · simp only [copyLoopB, if_neg hp, if_neg hf]
        cases hhit : decide (nextP ≤ copied + min bufferSize pos) <;>
          cases hjr : jr <;>
          simp only [hhit, hjr, Bool.false_eq_true, if_false, if_true,
            updOk, List.cons_append, List.nil_append, List.singleton_append,
            Bool.and_eq_true, decide_eq_true_eq] <;>
          first
          | exact ih _ _ _ _ _ _ _
          | exact ⟨trivial, ih _ _ _ _ _ _ _⟩

theorem copyLoopF_updOk (src dst size : Nat) :
    ∀ (fuel : Nat) (pos : Nat) (d : Nat → Nat) (copied nextP idx : Nat)
      (jr : Bool) (failAt : Option Nat),
      updOk copied (copyLoopF fuel d src dst size pos copied nextP jr
        failAt idx).evs = true := by
  intro fuel
  induction fuel with
  | zero =>
    intro pos d copied nextP idx jr failAt
    simp [copyLoopF, updOk]
  | succ fuel ih =>
    intro pos d copied nextP idx jr failAt
    by_cases hp : pos < size
    · by_cases hf : failAt = some idx
      · simp [copyLoopF, hp, hf, updOk]
      · simp only [copyLoopF, if_pos hp, if_neg hf]
        cases hhit : decide (nextP ≤ copied + min bufferSize (size - pos))
          <;> cases hjr : jr <;>
          simp only [hhit, hjr, Bool.false_eq_true, if_false, if_true,
            updOk, List.cons_append, List.nil_append, List.singleton_append,
            Bool.and_eq_true, decide_eq_true_eq] <;>
          first
          | exact ih _ _ _ _ _ _ _
          | exact ⟨trivial, ih _ _ _ _ _ _ _⟩
    · simp [copyLoopF, hp, updOk]

theorem copy_blocks_updOk (d : Nat → Nat) (src dst size : Nat)
    (jr : Bool) (failAt : Option Nat) :
    updOk 0 (copy_blocks d src dst size jr failAt).evs = true := by
  unfold copy_blocks
  by_cases h : src < dst
  · rw [if_pos h]
    exact copyLoopB_updOk src dst size size size d 0 progressStep 0 jr failAt
  · rw [if_neg h]
    exact copyLoopF_updOk src dst size size 0 d 0 progressStep 0 jr failAt

theorem updOk_chain (l : List Ev) :
    ∀ b, updOk b l = true →
      List.Chain' (· ≤ ·) (journalVals l) ∧ ∀ v ∈ journalVals l, b ≤ v := by
  induction l with
  | nil => intro b _; simp [journalVals]
  | cons e t ih =>
    intro b h
    cases e <;> simp only [updOk, Bool.and_eq_true, decide_eq_true_eq] at h
    case chunkCopy r w len =>
      obtain ⟨hc, ha⟩ := ih (b + len) h
      refine ⟨?_, ?_⟩
      · simpa [journalVals] using hc
      · intro v hv
        have := ha v (by simpa [journalVals] using hv)
        omega
    case journalWrite v =>
      obtain ⟨hvb, ht⟩ := h
      obtain ⟨hc, ha⟩ := ih b ht
      refine ⟨?_, ?_⟩
      · show List.Chain' (· ≤ ·) (v :: journalVals t)
        refine List.chain'_cons'.mpr ⟨?_, hc⟩
        intro y hy
        have := ha y (List.mem_of_mem_head? hy)
        omega
      · intro u hu
        show b ≤ u
        rcases List.mem_cons.mp hu with h2 | h2
        · omega
        · exact ha u h2
    case journalUpd v =>
      obtain ⟨hvb, ht⟩ := h
      obtain ⟨hc, ha⟩ := ih b ht
      refine ⟨?_, ?_⟩
      · show List.Chain' (· ≤ ·) (v :: journalVals t)
        refine List.chain'_cons'.mpr ⟨?_, hc⟩
        intro y hy
        have := ha y (List.mem_of_mem_head? hy)
        omega
      · intro u hu
        show b ≤ u
        rcases List.mem_cons.mp hu with h2 | h2
        · omega
        · exact ha u h2
    all_goals
      obtain ⟨hc, ha⟩ := ih b h
      exact ⟨by simpa [journalVals] using hc,
        fun v hv => ha v (by simpa [journalVals] using hv)⟩

/-! ## Claim C1 — move_partition rejection rules -/

/-- C1, counterexample: for a partition at offset `O = 1 MiB` of size
`S = 1 MiB` (with `min_start = O`, `max_end = 10 MiB`), the request whose
aligned start equals `O` — identical intervals — IS rejected by the
overlap rule, contrary to the claim. -/
theorem c1_identical_start_rejected :
    movePartitionCheck
      ⟨"/dev/disk2s3".toList, "/dev/disk2".toList, 1048576, 1048576, 512,
        1048576, 10485760⟩ 1048576 =
      .error "Move would overlap existing data" := by decide

/-- C1 (amended): with `min_start = offset` (as `read_partition_info`
guarantees) and a non-empty partition, a move request is accepted exactly
when the aligned start is at least `offset + size` and the moved interval
ends within `max_end`; every aligned start in `(O - S, O + S)` — including
`O` itself — is rejected, since the overlap test has no identical-interval
exemption. -/
theorem c1_move_reject_rule (info : PartitionInfo) (n : Nat)
    (hmin : info.min_start = info.partition_offset)
    (hpos : 0 < info.partition_size) :
    movePartitionCheck info n = .ok () ↔
      info.partition_offset + info.partition_size ≤ align_mib n ∧
        align_mib n + info.partition_size ≤ info.max_end := by
  constructor
  · intro hok
    simp only [movePartitionCheck] at hok
    split at hok
    · exact absurd hok (by simp)
    · next h1 =>
      split at hok
      · exact absurd hok (by simp)
      · next h2 =>
        split at hok
        · exact absurd hok (by simp)
        · next h3 =>
          push_neg at h1
          omega
  · intro ⟨h1, h2⟩
    simp only [movePartitionCheck]
    rw [if_neg (by omega), if_neg (by omega), if_neg (by omega)]

/-- C1, witness for `c1_move_reject_rule`. -/
theorem c1_move_reject_rule_witness :
    movePartitionCheck
      ⟨"/dev/disk2s3".toList, "/dev/disk2".toList, 1048576, 1048576, 512,
        1048576, 10485760⟩ 4194304 = .ok () :=
  (c1_move_reject_rule
    ⟨"/dev/disk2s3".toList, "/dev/disk2".toList, 1048576, 1048576, 512,
      1048576, 10485760⟩ 4194304 (by decide) (by decide)).mpr (by decide)

/-! ## Claim C2 — partition number and parent disk derivation -/

/-- C2, counterexample: for the whole-disk input `/dev/disk2` the parent
disk is NOT absent — the last-`s` search finds the `s` inside `disk` and
returns `/dev/di`. -/
theorem c2_whole_disk_parent_not_absent :
    parent_disk_identifier "/dev/disk2".toList = some "/dev/di".toList ∧
      parent_disk_identifier "/dev/disk2".toList ≠ none := by decide

/-- C2 (amended): `/dev/disk2s3` yields partition number 3 and parent
`/dev/disk2`; for the whole-disk input `/dev/disk2` the partition number
is absent (the characters `k2` after the last `s` do not parse), but the
parent-disk derivation returns `/dev/di` (the prefix before the `s` of
`disk`), not absence. -/
theorem c2_parse_and_parent :
    partition_number "/dev/disk2s3".toList = some 3 ∧
      parent_disk_identifier "/dev/disk2s3".toList =
        some "/dev/disk2".toList ∧
      partition_number "/dev/disk2".toList = none ∧
      parent_disk_identifier "/dev/disk2".toList =
        some "/dev/di".toList := by decide

/-! ## Claim C8 — filesystem fusion priority -/

/-- C8, counterexample: with `FilesystemType = "msdos"` and
`Content = "Apple_APFS"`, the code returns `fat32` (the first *candidate
field* that matches any pattern wins), while the claimed tag-major rule
("the first tag in the priority order whose substring matches any of the
three fields") would return `apfs`. -/
theorem c8_fusion_counterexample :
    detect_fs_type (some "msdos".toList) none (some "Apple_APFS".toList) =
        "fat32".toList ∧
      spec_detect_fs_type (some "msdos".toList) none
          (some "Apple_APFS".toList) = "apfs".toList ∧
      "fat32".toList ≠ "apfs".toList := by decide

/-- C8 (amended): the fusion is field-major — the detected tag is the tag
of the highest-priority pattern matching the FIRST candidate field (in
order FilesystemType, Type, Content) that matches any pattern, and
`unknown` when no field matches; in particular `FilesystemType = "msdos"`
with `Content = "Apple_APFS"` yields `fat32`. -/
theorem c8_fusion_field_major
    (filesystemType typ content : Option (List Char)) :
    (detect_fs_type filesystemType typ content =
      match (candidatesOf filesystemType typ content).find?
          (fun c => (detectTag c).isSome) with
      | some c => (detectTag c).getD "unknown".toList
      | none => "unknown".toList) ∧
      detect_fs_type (some "msdos".toList) none
        (some "Apple_APFS".toList) = "fat32".toList := by
  exact ⟨detectLoop_eq_find _, by decide⟩

/-! ## Claim C10 — apfs_list_volumes reports size = used -/

/-- C10: every volume entry produced by `handle_apfs_list_volumes` has its
`size` field equal to its `used` field, because both are resolved from the
same capacity-in-use key list. -/
theorem c10_volume_size_eq_used (cd : List (List Char × PV))
    (v : VolumeView) (hv : v ∈ apfs_volumes_payload cd) :
    v.size = v.used := by
  obtain ⟨vd, rfl⟩ := mem_apfs_volumes cd v hv
  rfl

/-- C10, witness: a concrete container dictionary with one volume whose
capacity-in-use is 4096 bytes. -/
theorem c10_volume_size_eq_used_witness :
    (VolumeView.mk "disk2s1".toList "Data".toList [] 4096 4096 none).size =
      (VolumeView.mk "disk2s1".toList "Data".toList [] 4096 4096
        none).used :=
  c10_volume_size_eq_used
    [("Volumes".toList, PV.parr [PV.pdict
      [("DeviceIdentifier".toList, PV.pstr "disk2s1".toList),
       ("Name".toList, PV.pstr "Data".toList),
       ("CapacityInUse".toList, PV.puint 4096)]])]
    (VolumeView.mk "disk2s1".toList "Data".toList [] 4096 4096 none)
    (by decide)

theorem progressVals_cons_chunk (r w l : Nat) (evs : List Ev) :
    progressVals (Ev.chunkCopy r w l :: evs) = progressVals evs := rfl

theorem progressVals_cons_prog (ph : List Char) (b t : Nat)
    (evs : List Ev) :
    progressVals (Ev.progressB ph b t :: evs) = b :: progressVals evs := rfl

theorem progressVals_cons_upd (v : Nat) (evs : List Ev) :
    progressVals (Ev.journalUpd v :: evs) = progressVals evs := rfl

theorem copyLoopB_progress (src dst size : Nat) :
    ∀ (fuel : Nat) (pos : Nat) (d : Nat → Nat) (copied nextP idx : Nat)
      (jr : Bool) (failAt : Option Nat),
      (∀ v ∈ progressVals
        (copyLoopB fuel d src dst size pos copied nextP jr failAt idx).evs,
        copied ≤ v) ∧
      List.Chain' (· ≤ ·) (progressVals
        (copyLoopB fuel d src dst size pos copied nextP jr failAt idx).evs)
    := by
  intro fuel
  induction fuel with
  | zero =>
    intro pos d copied nextP idx jr failAt
    simp [copyLoopB, progressVals]
  | succ fuel ih =>
    intro pos d copied nextP idx jr failAt
    by_cases hp : pos = 0
    · simp [copyLoopB, hp, progressVals]
    · by_cases hf : failAt = some idx
      · simp [copyLoopB, hp, hf, progressVals]
      · have hbs := bufferSize_pos
        have hch : 1 ≤ min bufferSize pos := by omega
        simp only [copyLoopB, if_neg hp, if_neg hf]
        cases hhit : decide (nextP ≤ copied + min bufferSize pos) with
        | false =>
          obtain ⟨ihm, ihc⟩ := ih (pos - min bufferSize pos)
            (writeChunk d (src + (pos - min bufferSize pos))
              (dst + (pos - min bufferSize pos)) (min bufferSize pos))
            (copied + min bufferSize pos) nextP (idx + 1) jr failAt
          simp only [hhit, Bool.false_eq_true, if_false, List.nil_append,
            progressVals_cons_chunk]
          exact ⟨fun v hv => by have := ihm v hv; omega, ihc⟩
        | true =>
          obtain ⟨ihm, ihc⟩ := ih (pos - min bufferSize pos)
            (writeChunk d (src + (pos - min bufferSize pos))
              (dst + (pos - min bufferSize pos)) (min bufferSize pos))
            (copied + min bufferSize pos) (nextP + progressStep) (idx + 1)
            jr failAt
          cases hjr : jr with
          | false =>
            rw [hjr] at ihm ihc
            simp only [hhit, hjr, Bool.false_eq_true, if_false, if_true,
              List.singleton_append, List.nil_append, List.cons_append,
              progressVals_cons_chunk, progressVals_cons_prog]
            constructor
            · intro v hv
              rcases List.mem_cons.mp hv with h | h
              · omega
              · have := ihm v h
                omega
            · refine List.chain'_cons'.mpr ⟨?_, ihc⟩
              intro b hb
              exact ihm b (List.mem_of_mem_head? hb)
          | true =>
            rw [hjr] at ihm ihc
            simp only [hhit, hjr, if_true, List.singleton_append,
              List.nil_append, List.cons_append, progressVals_cons_chunk,
              progressVals_cons_prog, progressVals_cons_upd]
            constructor
            · intro v hv
              rcases List.mem_cons.mp hv with h | h
              · omega
              · have := ihm v h
                omega
            · refine List.chain'_cons'.mpr ⟨?_, ihc⟩
              intro b hb
              exact ihm b (List.mem_of_mem_head? hb)

theorem copyLoopF_progress (src dst size : Nat) :
    ∀ (fuel : Nat) (pos : Nat) (d : Nat → Nat) (copied nextP idx : Nat)
      (jr : Bool) (failAt : Option Nat),
      (∀ v ∈ progressVals
        (copyLoopF fuel d src dst size pos copied nextP jr failAt idx).evs,
        copied ≤ v) ∧
      List.Chain' (· ≤ ·) (progressVals
        (copyLoopF fuel d src dst size pos copied nextP jr failAt idx).evs)
    := by
  intro fuel
  induction fuel with
  | zero =>
    intro pos d copied nextP idx jr failAt
    simp [copyLoopF, progressVals]
  | succ fuel ih =>
    intro pos d copied nextP idx jr failAt
    by_cases hp : pos < size
    · by_cases hf : failAt = some idx
      · simp [copyLoopF, hp, hf, progressVals]
      · have hbs := bufferSize_pos
        have hch : 1 ≤ min bufferSize (size - pos) := by omega
        simp only [copyLoopF, if_pos hp, if_neg hf]
        cases hhit : decide (nextP ≤ copied + min bufferSize (size - pos))
          with
        | false =>
          obtain ⟨ihm, ihc⟩ := ih (pos + min bufferSize (size - pos))
            (writeChunk d (src + pos) (dst + pos)
              (min bufferSize (size - pos)))
            (copied + min bufferSize (size - pos)) nextP (idx + 1) jr failAt
          simp only [hhit, Bool.false_eq_true, if_false, List.nil_append,
            progressVals_cons_chunk]
          exact ⟨fun v hv => by have := ihm v hv; omega, ihc⟩
        | true =>
          obtain ⟨ihm, ihc⟩ := ih (pos + min bufferSize (size - pos))
            (writeChunk d (src + pos) (dst + pos)
              (min bufferSize (size - pos)))
            (copied + min bufferSize (size - pos)) (nextP + progressStep)
            (idx + 1) jr failAt
          cases hjr : jr with
          | false =>
            rw [hjr] at ihm ihc
            simp only [hhit, hjr, Bool.false_eq_true, if_false, if_true,
              List.singleton_append, List.nil_append, List.cons_append,
              progressVals_cons_chunk, progressVals_cons_prog]
            constructor
            · intro v hv
              rcases List.mem_cons.mp hv with h | h
              · omega
              · have := ihm v h
                omega
            · refine List.chain'_cons'.mpr ⟨?_, ihc⟩
              intro b hb
              exact ihm b (List.mem_of_mem_head? hb)
          | true =>
            rw [hjr] at ihm ihc
            simp only [hhit, hjr, if_true, List.singleton_append,
              List.nil_append, List.cons_append, progressVals_cons_chunk,
              progressVals_cons_prog, progressVals_cons_upd]
            constructor
            · intro v hv
              rcases List.mem_cons.mp hv with h | h
              · omega
              · have := ihm v h
                omega
            · refine List.chain'_cons'.mpr ⟨?_, ihc⟩
              intro b hb
              exact ihm b (List.mem_of_mem_head? hb)
    · simp [copyLoopF, hp, progressVals]

/-! ## Claim C3 — crash-journal lifecycle during move -/

theorem updOk_sgdisk_tail :
    ∀ b, updOk b [Ev.sgdiskCmd, Ev.journalClear] = true := fun _ => rfl

theorem updOk_sgdisk_only : ∀ b, updOk b [Ev.sgdiskCmd] = true := fun _ =>
  rfl

/-- C3: once `move_partition` passes validation (and sgdisk is present),
(a) the first event is the journal write with `lastCopied = 0`, before any
byte is copied; (b) the journal file is absent at the end exactly when the
operation succeeded; (c) the operation succeeds exactly when the block
copy, the partition-number parse and the sgdisk rewrite all succeed — on
any error after the journal write the file remains; and (d) every
journal record carries exactly the cumulative copied byte count, so the
recorded `lastCopied` values are monotonically non-decreasing. -/
theorem c3_journal_lifecycle (device : List Char) (n : Nat) (env : MoveEnv)
    (hsg : env.sgdiskFound = true)
    (hchk : movePartitionCheck env.info n = .ok ()) :
    (move_partition_run device n env).1.head? =
        some (Ev.journalWrite 0) ∧
      (journalReplay none (move_partition_run device n env).1 = none ↔
        (move_partition_run device n env).2 = .ok ()) ∧
      ((move_partition_run device n env).2 = .ok () ↔
        ((copy_blocks env.diskBytes env.info.partition_offset
            (align_mib n) env.info.partition_size true env.copyFailAt).ok
              = true ∧
          (partition_number device).isSome = true ∧
          env.sgdiskRes = .ok ())) ∧
      updOk 0 (move_partition_run device n env).1 = true ∧
      List.Chain' (· ≤ ·)
        (journalVals (move_partition_run device n env).1) := by
  have hbenign := copy_blocks_benign env.diskBytes
    env.info.partition_offset (align_mib n) env.info.partition_size true
    env.copyFailAt
  have hupd := copy_blocks_updOk env.diskBytes env.info.partition_offset
    (align_mib n) env.info.partition_size true env.copyFailAt
  have hrep : (journalReplay (some 0) (copy_blocks env.diskBytes
      env.info.partition_offset (align_mib n) env.info.partition_size true
      env.copyFailAt).evs).isSome = true :=
    journalReplay_benign_isSome _ hbenign 0
  set co := copy_blocks env.diskBytes env.info.partition_offset
    (align_mib n) env.info.partition_size true env.copyFailAt with hco
  simp only [move_partition_run, hsg, hchk]
  rw [if_neg (by simp)]
  rw [← hco]
  cases hok : co.ok with
  | false =>
    rw [if_pos rfl]
    refine ⟨rfl, ?_, ?_, ?_, ?_⟩
    · rw [show journalReplay none (Ev.journalWrite 0 :: co.evs) =
        journalReplay (some 0) co.evs from rfl]
      constructor
      · intro h
        rw [h] at hrep
        exact absurd hrep (by simp)
      · intro h
        exact absurd h (by simp)
    · constructor
      · intro h
        exact absurd h (by simp)
      · intro ⟨h1, _⟩
        exact absurd h1 (by simp)
    · rw [show updOk 0 (Ev.journalWrite 0 :: co.evs) =
        (decide ((0 : Nat) = 0) && updOk 0 co.evs) from rfl]
      simp [hupd]
    · refine (updOk_chain (Ev.journalWrite 0 :: co.evs) 0 ?_).1
      rw [show updOk 0 (Ev.journalWrite 0 :: co.evs) =
        (decide ((0 : Nat) = 0) && updOk 0 co.evs) from rfl]
      simp [hupd]
  | true =>
    rw [if_neg (by simp)]
    cases hpn : partition_number device with
    | none =>
      refine ⟨rfl, ?_, ?_, ?_, ?_⟩
      · rw [show journalReplay none (Ev.journalWrite 0 :: co.evs) =
          journalReplay (some 0) co.evs from rfl]
        constructor
        · intro h
          rw [h] at hrep
          exact absurd hrep (by simp)
        · intro h
          exact absurd h (by simp)
      · constructor
        · intro h
          exact absurd h (by simp)
        · intro ⟨_, h2, _⟩
          exact absurd h2 (by simp)
      · rw [show updOk 0 (Ev.journalWrite 0 :: co.evs) =
          (decide ((0 : Nat) = 0) && updOk 0 co.evs) from rfl]
        simp [hupd]
      · refine (updOk_chain (Ev.journalWrite 0 :: co.evs) 0 ?_).1
        rw [show updOk 0 (Ev.journalWrite 0 :: co.evs) =
          (decide ((0 : Nat) = 0) && updOk 0 co.evs) from rfl]
        simp [hupd]
    | some k =>
      cases hsr : env.sgdiskRes with
      | error e =>
        simp only [List.cons_append]
        refine ⟨rfl, ?_, ?_, ?_, ?_⟩
        · rw [show journalReplay none (Ev.journalWrite 0 ::
            (co.evs ++ [Ev.sgdiskCmd])) =
              journalReplay (some 0) (co.evs ++ [Ev.sgdiskCmd]) from rfl]
          rw [journalReplay_append]
          constructor
          · intro h
            obtain ⟨w, hw⟩ := Option.isSome_iff_exists.mp hrep
            rw [hw] at h
            exact absurd h (by simp [journalReplay])
          · intro h
            exact absurd h (by simp)
        · constructor
          · intro h
            exact absurd h (by simp)
          · intro ⟨_, _, h3⟩
            exact absurd h3 (by simp)
        · rw [show updOk 0 (Ev.journalWrite 0 ::
            (co.evs ++ [Ev.sgdiskCmd])) =
              (decide ((0 : Nat) = 0) &&
                updOk 0 (co.evs ++ [Ev.sgdiskCmd])) from rfl]
          simp [updOk_append_true co.evs [Ev.sgdiskCmd] 0 hupd
            updOk_sgdisk_only]
        · refine (updOk_chain (Ev.journalWrite 0 ::
            (co.evs ++ [Ev.sgdiskCmd])) 0 ?_).1
          rw [show updOk 0 (Ev.journalWrite 0 ::
            (co.evs ++ [Ev.sgdiskCmd])) =
              (decide ((0 : Nat) = 0) &&
                updOk 0 (co.evs ++ [Ev.sgdiskCmd])) from rfl]
          simp [updOk_append_true co.evs [Ev.sgdiskCmd] 0 hupd
            updOk_sgdisk_only]
      | ok u =>
        cases u
        simp only [List.cons_append]
        refine ⟨rfl, ?_, ?_, ?_, ?_⟩
        · rw [show journalReplay none (Ev.journalWrite 0 ::
            (co.evs ++ [Ev.sgdiskCmd, Ev.journalClear])) =
              journalReplay (some 0)
                (co.evs ++ [Ev.sgdiskCmd, Ev.journalClear]) from rfl]
          rw [journalReplay_append]
          constructor
          · intro _
            trivial
          · intro _
            obtain ⟨w, hw⟩ := Option.isSome_iff_exists.mp hrep
            rw [hw]
            rfl
        · simp [hok, hpn, hsr]
        · rw [show updOk 0 (Ev.journalWrite 0 ::
            (co.evs ++ [Ev.sgdiskCmd, Ev.journalClear])) =
              (decide ((0 : Nat) = 0) && updOk 0
                (co.evs ++ [Ev.sgdiskCmd, Ev.journalClear])) from rfl]
          simp [updOk_append_true co.evs [Ev.sgdiskCmd, Ev.journalClear] 0
            hupd updOk_sgdisk_tail]
        · refine (updOk_chain (Ev.journalWrite 0 ::
            (co.evs ++ [Ev.sgdiskCmd, Ev.journalClear])) 0 ?_).1
          rw [show updOk 0 (Ev.journalWrite 0 ::
            (co.evs ++ [Ev.sgdiskCmd, Ev.journalClear])) =
              (decide ((0 : Nat) = 0) && updOk 0
                (co.evs ++ [Ev.sgdiskCmd, Ev.journalClear])) from rfl]
          simp [updOk_append_true co.evs [Ev.sgdiskCmd, Ev.journalClear] 0
            hupd updOk_sgdisk_tail]

/-- C3, witness for `c3_journal_lifecycle`: a concrete accepted move of a
1 MiB partition from offset 1 MiB to offset 2 MiB. -/
theorem c3_journal_lifecycle_witness :
    (move_partition_run "/dev/disk2s3".toList 2097152
        (MoveEnv.mk "ext4".toList true (.ok ()) true (.ok ())
          (PartitionInfo.mk "/dev/disk2s3".toList "/dev/disk2".toList
            1048576 1048576 512 1048576 10485760) (fun _ => 0) none)).1.head?
      = some (Ev.journalWrite 0) :=
  (c3_journal_lifecycle "/dev/disk2s3".toList 2097152
    (MoveEnv.mk "ext4".toList true (.ok ()) true (.ok ())
      (PartitionInfo.mk "/dev/disk2s3".toList "/dev/disk2".toList
        1048576 1048576 512 1048576 10485760) (fun _ => 0) none)
    rfl (by decide)).1

/-! ## Claim C5 — direction rule and copy correctness -/

/-- C5: in a same-disk copy with no I/O failure, (a) when
`dst_offset > src_offset` the chunk read offsets are strictly decreasing
(back-to-front, highest offset first), (b) otherwise strictly increasing
(front-to-back), and (c) for every pair of (possibly overlapping) ranges,
the final contents of the destination range equal the original contents
of the source range. -/
theorem c5_copy_blocks_correct (d : Nat → Nat)
    (src_offset dst_offset size : Nat) (journal : Bool) :
    (dst_offset > src_offset →
      List.Chain' (fun a b => a > b)
        (chunkReads (copy_blocks d src_offset dst_offset size journal
          none).evs)) ∧
    (¬ dst_offset > src_offset →
      List.Chain' (fun a b => a < b)
        (chunkReads (copy_blocks d src_offset dst_offset size journal
          none).evs)) ∧
    (∀ j, j < size →
      (copy_blocks d src_offset dst_offset size journal none).disk
        (dst_offset + j) = d (src_offset + j)) := by
  refine ⟨?_, ?_, ?_⟩
  · intro hgt
    unfold copy_blocks
    rw [if_pos hgt]
    exact (copyLoopB_reads src_offset dst_offset size size size d 0
      progressStep 0 journal none).2
  · intro hle
    unfold copy_blocks
    rw [if_neg hle]
    exact (copyLoopF_reads src_offset dst_offset size size 0 d 0
      progressStep 0 journal none).2
  · intro j hj
    unfold copy_blocks
    by_cases h : src_offset < dst_offset
    · rw [if_pos h]
      exact copyLoopB_disk src_offset dst_offset size h size size d d 0
        progressStep 0 journal le_rfl (fun _ _ => rfl)
        (fun i hi1 hi2 => by omega) j hj
    · rw [if_neg h]
      exact copyLoopF_disk src_offset dst_offset size (by omega) size 0 d d
        0 progressStep 0 journal (by omega) (fun _ _ _ => rfl)
        (fun i hi => by omega) j hj

/-- C5, witness: a 3-byte copy from offset 0 to overlapping offset 2 on
the identity-content disk moves the source bytes. -/
theorem c5_copy_blocks_correct_witness :
    (copy_blocks (fun i => i) 0 2 3 false none).disk (2 + 1) =
      (fun i => i) (0 + 1) :=
  (c5_copy_blocks_correct (fun i => i) 0 2 3 false).2.2 1 (by decide)

/-! ## Claim C7 — the size parser -/

set_option maxRecDepth 8192 in
/-- C7, counterexample: the claim fails on both of its universal parts.
The accepted language is NOT exactly the grammar `<number>[suffix]` —
`"k1"` is not a grammar string (the suffix precedes the digit), yet the
parser accepts it as 1 KiB, because the digit-and-dot characters are
extracted positionally by `partition`.  And the returned value is NOT
always `floor(number x multiplier)`: the grammar string
`"9007199254740993"` (2^53 + 1, whose exact floor with multiplier 1 is
9007199254740993) is rounded down to the nearest binary64 and parses to
9007199254740992. -/
theorem c7_nongrammar_string_accepted :
    (parse_size_bytes "k1".toList = .ok 1024 ∧
      sizeGrammar "k1".toList = false) ∧
    (parse_size_bytes "9007199254740993".toList = .ok 9007199254740992 ∧
      9007199254740993 * 1 / 10 ^ 0 = 9007199254740993 ∧
      (9007199254740992 : Nat) ≠ 9007199254740993) := by decide

set_option maxRecDepth 8192 in
/-- C7 (amended): every grammar string `<number><suffix>` is accepted,
with the value `(number * multiplier).floor()` computed in `f64`
arithmetic (`sizeValue`: correctly rounded binary64 parse, exact
power-of-two multiply, floor, saturating `u64` cast) with multipliers 1,
1024, 1024², 1024³, 1024⁴; on the enumerated examples the arithmetic is
exact and the claimed values hold.  But the accepted set is strictly
larger than the grammar — the digit-and-dot characters are collected
positionally, so e.g. `"k1"` is also accepted (as 1 KiB) — and for
numbers that are not exactly representable the binary64 rounding shows
through: `"9007199254740993"` yields 9007199254740992, and
`"0.99999999999999999k"` (which rounds to 1.0) yields 1024. -/
theorem c7_size_parse_law :
    (∀ (num sfx : List Char) (a k mult : Nat),
      (∀ c ∈ num, isNumChar c = true) → parseNumber num = some (a, k) →
      suffixMult sfx = some mult →
      parse_size_bytes (num ++ sfx) = .ok (sizeValue a k mult)) ∧
      parse_size_bytes "1024".toList = .ok 1024 ∧
      parse_size_bytes "1k".toList = .ok 1024 ∧
      parse_size_bytes "2.5M".toList = .ok 2621440 ∧
      parse_size_bytes "1tb".toList = .ok 1099511627776 ∧
      parse_size_bytes "".toList = .error "Invalid size" ∧
      parse_size_bytes "3xyz".toList = .error "Invalid size suffix" ∧
      parse_size_bytes "k1".toList = .ok 1024 ∧
      parse_size_bytes "9007199254740993".toList = .ok 9007199254740992 ∧
      parse_size_bytes "0.99999999999999999k".toList = .ok 1024 :=
  ⟨parse_size_bytes_append, by decide, by decide, by decide, by decide,
    by decide, by decide, by decide, by decide, by decide⟩

/-- C7, witness for the quantified part of `c7_size_parse_law`:
`"7kb"` parses to 7 KiB. -/
theorem c7_size_parse_law_witness :
    parse_size_bytes ("7".toList ++ "kb".toList) = .ok 7168 :=
  c7_size_parse_law.1 "7".toList "kb".toList 7 0 1024 (by decide)
    (by decide) (by decide)


theorem flashWriteLoop_absorbed (img : Nat → Nat) :
    ∀ (fuel : Nat) (total pos nextP : Nat) (dev : Nat → Nat),
      total - pos ≤ fuel →
      (flashWriteLoop fuel img dev total pos nextP).absorbed =
        (List.range' pos (total - pos)).map img := by
  intro fuel
  induction fuel with
  | zero =>
    intro total pos nextP dev hfuel
    have : total - pos = 0 := by omega
    simp [flashWriteLoop, this]
  | succ fuel ih =>
    intro total pos nextP dev hfuel
    by_cases hp : pos < total
    · have hbs := bufferSize_pos
      have hch : 1 ≤ min bufferSize (total - pos) := by omega
      have hch2 : min bufferSize (total - pos) ≤ total - pos := by omega
      simp only [flashWriteLoop, if_pos hp]
      rw [ih total (pos + min bufferSize (total - pos)) _ _ (by omega)]
      set c := min bufferSize (total - pos) with hc
      have h := List.range'_append pos c (total - (pos + c)) 1
      simp only [Nat.one_mul] at h
      have h2 : List.range' pos (total - pos) =
          List.range' pos c ++ List.range' (pos + c) (total - (pos + c)) :=
        by
        rw [h]
        congr 1
        omega
      rw [h2, List.map_append]
      congr 1
      rw [List.range'_eq_map_range, List.map_map]
      rfl
    · have : total - pos = 0 := by omega
      simp [flashWriteLoop, hp, this]

theorem flashVerifyLoop_absorbed (dev : Nat → Nat) :
    ∀ (fuel : Nat) (total pos nextP : Nat), total - pos ≤ fuel →
      (flashVerifyLoop fuel dev total pos nextP).1 =
        (List.range' pos (total - pos)).map dev := by
  intro fuel
  induction fuel with
  | zero =>
    intro total pos nextP hfuel
    have : total - pos = 0 := by omega
    simp [flashVerifyLoop, this]
  | succ fuel ih =>
    intro total pos nextP hfuel
    by_cases hp : pos < total
    · have hbs := bufferSize_pos
      have hch : 1 ≤ min bufferSize (total - pos) := by omega
      have hch2 : min bufferSize (total - pos) ≤ total - pos := by omega
      simp only [flashVerifyLoop, if_pos hp]
      rw [ih total (pos + min bufferSize (total - pos)) _ (by omega)]
      set c := min bufferSize (total - pos) with hc
      have h := List.range'_append pos c (total - (pos + c)) 1
      simp only [Nat.one_mul] at h
      have h2 : List.range' pos (total - pos) =
          List.range' pos c ++ List.range' (pos + c) (total - (pos + c)) :=
        by
        rw [h]
        congr 1
        omega
      rw [h2, List.map_append]
      congr 1
      rw [List.range'_eq_map_range, List.map_map]
      rfl
    · have : total - pos = 0 := by omega
      simp [flashVerifyLoop, hp, this]

/-! ## Claim C6 — flash round trip -/

/-- C6, counterexample: an image of `N = 0` bytes with target size 8 — so
`N` is smaller than the target disk size — does not succeed: the write
loop rejects an empty image, so the claim fails at `N = 0`. -/
theorem c6_empty_image_fails :
    (0 : Nat) < 8 ∧
      (handle_flash_image_run "/dev/disk3".toList 0 8 (fun i => i)
        (fun _ => 0) (fun i => i) true).2 = .error "Image is empty" := by
  decide

/-- C6 (amended): for every image of `N` bytes with `0 < N` smaller than
the known target disk size, flash with verify succeeds, reports a written
byte count equal to `N`, and `sourceHash = verifiedHash` (both digests are
of the same `N`-byte stream), provided the device returns the bytes
written; and whenever the re-read digest differs from the source digest,
the result is the hard checksum-mismatch error. -/
theorem c6_flash_round_trip :
    (∀ (device : List Char) (N D : Nat) (img dev readBack : Nat → Nat),
      0 < N → N < D → (∀ i, i < N → readBack i = img i) →
      (handle_flash_image_run device N D img dev readBack true).2 =
        .ok (FlashResult.mk N ((List.range N).map img)
          (some ((List.range N).map img)) true)) ∧
    (∀ (device : List Char) (N D : Nat) (img dev readBack : Nat → Nat),
      0 < N → ¬(D > 0 ∧ N > D) →
      (List.range N).map readBack ≠ (List.range N).map img →
      (handle_flash_image_run device N D img dev readBack true).2 =
        .error "Verification failed: checksum mismatch") := by
  have habs : ∀ (N : Nat) (img dev : Nat → Nat),
      (flashWriteLoop N img dev N 0 progressStep).absorbed =
        (List.range N).map img := by
    intro N img dev
    have h := flashWriteLoop_absorbed img N N 0 progressStep dev (by omega)
    rw [h, Nat.sub_zero, ← List.range_eq_range']
  have hver : ∀ (N : Nat) (readBack : Nat → Nat),
      (flashVerifyLoop N readBack N 0 progressStep).1 =
        (List.range N).map readBack := by
    intro N readBack
    have h := flashVerifyLoop_absorbed readBack N N 0 progressStep
      (by omega)
    rw [h, Nat.sub_zero, ← List.range_eq_range']
  constructor
  · intro device N D img dev readBack h0 h1 hr
    have hveq : (List.range N).map readBack = (List.range N).map img :=
      List.map_congr_left (fun i hi => hr i (List.mem_range.mp hi))
    unfold handle_flash_image_run
    rw [if_neg (by omega)]
    unfold flash_write_with_hash flash_verify_with_hash
    rw [if_neg (by omega), if_neg (by omega)]
    simp only [habs, hver, hveq, if_true]
    rw [if_neg (by simp)]
  · intro device N D img dev readBack h0 hgate hne
    unfold handle_flash_image_run
    rw [if_neg hgate]
    unfold flash_write_with_hash flash_verify_with_hash
    rw [if_neg (by omega), if_neg (by omega)]
    simp only [habs, hver, if_true]
    rw [if_pos hne]

/-- C6, witness for the round-trip component of `c6_flash_round_trip`:
a 2-byte image on a 4-byte disk with a faithful device. -/
theorem c6_flash_round_trip_witness :
    (handle_flash_image_run "/dev/disk3".toList 2 4 (fun i => i + 7)
        (fun _ => 0) (fun i => i + 7) true).2 =
      .ok (FlashResult.mk 2 ((List.range 2).map (fun i => i + 7))
        (some ((List.range 2).map (fun i => i + 7))) true) :=
  c6_flash_round_trip.1 "/dev/disk3".toList 2 4 (fun i => i + 7)
    (fun _ => 0) (fun i => i + 7) (by decide) (by decide)
    (fun i _ => rfl)

/-! ## Claim C4 — input validation versus side effects -/

/-- C4, counterexample: two of the four input-error categories are not
side-effect free.  A `move_partition` request whose `newStart` has an
invalid size suffix (`"3xyz"`) fails only after the swap check and the
forced unmounts have been performed (the parent-disk unmount is in the
trace before the failure); and a `set_label_uuid` request on an ext4
partition with a label and an invalid UUID (`"0-0-0-0-0"`) fails only
after the label change (`e2label`) has already run. -/
theorem c4_input_errors_after_side_effects :
    ((handle_move_partition_run (some "disk2s3".toList)
        (some "3xyz".toList)
        (MoveEnv.mk "ext4".toList true (.ok ()) true (.ok ())
          (PartitionInfo.mk "/dev/disk2s3".toList "/dev/disk2".toList
            1048576 1048576 512 1048576 10485760) (fun _ => 0) none)).2 =
        .error "Invalid size suffix" ∧
      Ev.unmountDisk "/dev/disk2".toList ∈
        (handle_move_partition_run (some "disk2s3".toList)
          (some "3xyz".toList)
          (MoveEnv.mk "ext4".toList true (.ok ()) true (.ok ())
            (PartitionInfo.mk "/dev/disk2s3".toList "/dev/disk2".toList
              1048576 1048576 512 1048576 10485760) (fun _ => 0) none)).1)
    ∧
    ((handle_set_label_uuid_run (some "disk2s5".toList)
        (some "DATA".toList) (some "0-0-0-0-0".toList)
        (LabelUuidEnv.mk "ext4".toList (.ok ()) (.ok ()))).2 =
        .error "Invalid UUID format" ∧
      Ev.sidecarStream "e2label".toList
          ["/dev/disk2s5".toList, "DATA".toList] ∈
        (handle_set_label_uuid_run (some "disk2s5".toList)
          (some "DATA".toList) (some "0-0-0-0-0".toList)
          (LabelUuidEnv.mk "ext4".toList (.ok ()) (.ok ()))).1) :=
  by decide

/-- C4 (amended): a request missing a required field yields an immediate
failure with no side-effecting step at all (shown for `move_partition`
and `create_partition_table`), and an unsupported table type is likewise
rejected before any side effect (the scheme check of
`create_partition_table` precedes quiescence); but the invalid-size-suffix
and invalid-UUID categories are not side-effect free: `move_partition`
parses `newStart` only after the filesystem probe and the forced
unmounts, and `set_label_uuid` validates the UUID only after a requested
label change has already been applied. -/
theorem c4_validation_order :
    (∀ (ns : Option (List Char)) (env : MoveEnv),
      handle_move_partition_run none ns env =
        ([], .error "Missing field: partitionIdentifier")) ∧
    (∀ (pid : List Char) (env : MoveEnv),
      handle_move_partition_run (some pid) none env =
        ([], .error "Missing field: newStart")) ∧
    (∀ (t : Option (List Char)) (env : TableEnv),
      handle_create_partition_table_run none t env =
        ([], .error "Missing field: deviceIdentifier")) ∧
    (∀ (d : List Char) (env : TableEnv),
      handle_create_partition_table_run (some d) none env =
        ([], .error "Missing field: tableType")) ∧
    (∀ (d t : List Char) (env : TableEnv),
      ¬(lowerStr t = "gpt".toList ∨ lowerStr t = "mbr".toList) →
      handle_create_partition_table_run (some d) (some t) env =
        ([], .error "Unsupported table type")) ∧
    (∀ (pid ns : List Char) (env : MoveEnv) (e : String),
      env.fsType ≠ "swap".toList → env.unmountDiskRes = .ok () →
      parse_size_bytes ns = .error e →
      handle_move_partition_run (some pid) (some ns) env =
        ([Ev.detectFs (normalize_device pid),
          Ev.unmount (normalize_device pid),
          Ev.unmountDisk ((parent_disk_identifier
            (normalize_device pid)).getD (normalize_device pid))],
          .error e)) ∧
    (∀ (pid l u : List Char) (env : LabelUuidEnv) (e : String)
      (bc : List Char × List (List Char)),
      env.fsType = "ext4".toList → env.labelRes = .ok () →
      driverLabelCommand env.fsType (normalize_device pid) l = some bc →
      validate_uuid u = .error e →
      handle_set_label_uuid_run (some pid) (some l) (some u) env =
        ([Ev.detectFs (normalize_device pid),
          Ev.sidecarStream bc.1 bc.2], .error e)) := by
  refine ⟨fun ns env => rfl, fun pid env => rfl, fun t env => rfl,
    fun d env => rfl, ?_, ?_, ?_⟩
  · intro d t env ht
    simp only [handle_create_partition_table_run]
    rw [if_neg ht]
  · intro pid ns env e hfs hunm hpe
    have h1 : maybe_swapoff_run (normalize_device pid) env =
        ([Ev.detectFs (normalize_device pid)], .ok ()) := by
      unfold maybe_swapoff_run
      rw [if_pos hfs]
    have h2 : force_unmount_run (normalize_device pid) env =
        ([Ev.unmount (normalize_device pid),
          Ev.unmountDisk ((parent_disk_identifier
            (normalize_device pid)).getD (normalize_device pid))],
          .ok ()) := by
      unfold force_unmount_run
      rw [hunm]
    simp only [handle_move_partition_run, h1, h2, hpe]
    rfl
  · intro pid l u env e bc hfs hlr hlc hvu
    simp only [handle_set_label_uuid_run]
    rw [if_neg (by simp)]
    rw [if_neg (by rw [hfs]; decide)]
    rw [if_pos (by rw [hfs]; exact Or.inl rfl)]
    simp only [hlc, hlr, hvu]
    rfl

/-- C4, witness for the quantified parts of `c4_validation_order` (the
size-suffix component at a concrete request). -/
theorem c4_validation_order_witness :
    handle_move_partition_run (some "disk2s3".toList)
        (some "3xyz".toList)
        (MoveEnv.mk "ext4".toList true (.ok ()) true (.ok ())
          (PartitionInfo.mk "/dev/disk2s3".toList "/dev/disk2".toList
            1048576 1048576 512 1048576 10485760) (fun _ => 0) none) =
      ([Ev.detectFs (normalize_device "disk2s3".toList),
        Ev.unmount (normalize_device "disk2s3".toList),
        Ev.unmountDisk ((parent_disk_identifier
          (normalize_device "disk2s3".toList)).getD
            (normalize_device "disk2s3".toList))],
        .error "Invalid size suffix") :=
  c4_validation_order.2.2.2.2.2.1 "disk2s3".toList "3xyz".toList
    (MoveEnv.mk "ext4".toList true (.ok ()) true (.ok ())
      (PartitionInfo.mk "/dev/disk2s3".toList "/dev/disk2".toList
        1048576 1048576 512 1048576 10485760) (fun _ => 0) none)
    "Invalid size suffix" (by decide) rfl (by decide)


/-! ## Claim C9 — per-phase progress monotonicity in bytes -/

/-- C9, counterexample: a concrete accepted 50 MiB move (offset 1 MiB to
51 MiB, `newStart = "51m"`).  The `"move"`-phase progress events carry
bytes `[0, 52428800, 0]` — the copy's 50 MiB checkpoint is followed by
the terminal `emit_progress` boundary event, which always carries
`bytes = 0` — so the per-phase byte sequence is not monotonically
non-decreasing. -/
theorem c9_progress_not_monotone :
    progressVals (handle_move_partition_run (some "disk2s3".toList)
        (some "51m".toList)
        (MoveEnv.mk "ext4".toList true (.ok ()) true (.ok ())
          (PartitionInfo.mk "/dev/disk2s3".toList "/dev/disk2".toList
            1048576 52428800 512 1048576 105906176) (fun _ => 0) none)).1
      = [0, 52428800, 0] ∧
    ¬ List.Chain' (· ≤ ·) ([0, 52428800, 0] : List Nat) := by
  constructor
  · decide
  · intro hc
    rw [List.chain'_cons, List.chain'_cons] at hc
    omega

/-- C9 (amended): the progress events emitted by the block-copy loop
itself are monotonically non-decreasing in their `bytes` field (each
carries the cumulative copied byte count); the claim fails for the full
phase only because the phase-boundary events emitted through
`emit_progress` always carry `bytes = 0`. -/
theorem c9_copy_progress_monotone (d : Nat → Nat)
    (src_offset dst_offset size : Nat) (journal : Bool)
    (failAt : Option Nat) :
    List.Chain' (· ≤ ·)
      (progressVals (copy_blocks d src_offset dst_offset size journal
        failAt).evs) := by
  unfold copy_blocks
  by_cases h : src_offset < dst_offset
  · rw [if_pos h]
    exact (copyLoopB_progress src_offset dst_offset size size size d 0
      progressStep 0 journal failAt).2
  · rw [if_neg h]
    exact (copyLoopF_progress src_offset dst_offset size size 0 d 0
      progressStep 0 journal failAt).2

end Oxidisk
